import Mathlib

/-!
Verification of the TrackStudio core engines against their specification.

This file gives a shallow embedding of the two core subsystems of the
`trackstudio` repository:

* the cross-camera identity fusion engine
  (`trackstudio/mergers/bev_cluster.py`, class `BEVClusterMerger`), and
* the stream synchronization and combination engine
  (`trackstudio/core/stream_combiner.py`, class `StreamCombinerTrack`),

together with theorems settling the frozen claims about them.

Modelling conventions:
* Python floats are idealized as rationals (`ℚ`); all comparisons the code
  performs on floats are reproduced exactly on `ℚ`.  Square roots occurring
  in norm comparisons are eliminated by algebraically equivalent squared
  comparisons (documented at each definition).
* Python dicts are insertion-ordered association lists; `dictSet` replaces
  the first occurrence of a key in place (as Python does) and appends new
  keys, `dictDel` removes the entry of a key.
* Track ids, which the code stores as decimal strings of integers, are
  modelled directly as naturals (the code only ever compares them for
  equality or converts them back with `int`).
* Stateful methods become pure functions from a state (plus the cycle's
  external inputs, such as the clock value and per-stream read outcomes) to
  a new state; a Python statement that can raise (`dict[missing_key]`)
  is modelled with `Option`.
-/

namespace TrackStudio

/-! ## Ordered-dictionary helpers (Python `dict` semantics) -/

variable {κ : Type} {β : Type}

/-- Lookup in an insertion-ordered association list (first occurrence). -/
def dictGet [DecidableEq κ] : List (κ × β) → κ → Option β
  | [], _ => none
  | (k', v) :: t, k => if k' = k then some v else dictGet t k

/-- `d[k] = v`: replace the first binding of `k` in place, else append. -/
def dictSet [DecidableEq κ] : List (κ × β) → κ → β → List (κ × β)
  | [], k, v => [(k, v)]
  | (k', v') :: t, k, v => if k' = k then (k, v) :: t else (k', v') :: dictSet t k v

/-- `del d[k]`: remove the first binding of `k` (no-op when absent). -/
def dictDel [DecidableEq κ] : List (κ × β) → κ → List (κ × β)
  | [], _ => []
  | (k', v') :: t, k => if k' = k then t else (k', v') :: dictDel t k

/-- `d.update(other)`: fold `dictSet` over the other dict's bindings. -/
def dictUpdate [DecidableEq κ] (d other : List (κ × β)) : List (κ × β) :=
  other.foldl (fun acc p => dictSet acc p.1 p.2) d

/-- Key list of an association list. -/
def dictKeys (d : List (κ × β)) : List κ := d.map Prod.fst

/-! ## Fusion engine: data model (`bev_cluster.py`) -/

/-- `trackers/base.py` class `BEVTrack` (fields used by the merger).
`trajectory` and `confidence` do not influence any merge decision and are
omitted. -/
structure BEVTrack where
  track_id : ℕ
  bev_x : ℚ
  bev_y : ℚ
  camera_id : ℕ
  global_id : Option ℕ := none
deriving DecidableEq, Repr

/-- `bev_cluster.py` dataclass `GlobalTrack`.  `smoothed_position` and
`velocity` are never read or written by the merger's code paths and are
omitted. -/
structure GlobalTrack where
  global_id : ℕ
  camera_tracks : List (ℕ × ℕ)            -- dict camera_id → local track id
  last_seen : ℚ
  positions : List (ℚ × ℚ × ℚ)             -- (x, y, timestamp)
  appearance_features : Option (List ℚ) := none
deriving DecidableEq, Repr

/-- `bev_cluster.py` dataclass `TrackCandidate`. -/
structure TrackCandidate where
  camera_id : ℕ
  local_track_id : ℕ
  position : ℚ × ℚ
  appearance_features : Option (List ℚ)
  original_bev_track : BEVTrack
deriving DecidableEq, Repr

/-- `vision_config.py` class `CrossCameraConfig` (fields read by the merger). -/
structure CrossCameraConfig where
  spatial_threshold : ℚ
  appearance_threshold : ℚ
  max_track_age_s : ℚ
deriving DecidableEq, Repr

/-- Mutable attributes of `BEVClusterMerger`. -/
structure MergerState where
  global_tracks : List (ℕ × GlobalTrack)   -- dict global_id → GlobalTrack
  next_global_id : ℕ
  track_id_mapping : List ((ℕ × ℕ) × ℕ)    -- dict (camera_id, local id) → global_id
  total_tracks_created : ℕ
  multi_camera_associations : ℕ
deriving DecidableEq, Repr

/-- `BEVClusterMerger.__init__` state. -/
def initialMergerState : MergerState :=
  { global_tracks := []
    next_global_id := 1
    track_id_mapping := []
    total_tracks_created := 0
    multi_camera_associations := 0 }

/-! ## Fusion engine: candidate graph -/

/-- Spatial gate of `_cluster_tracks`: the code skips the pair when
`np.linalg.norm(p - q) > spatial_threshold`.  Over the reals,
`‖p − q‖ ≤ thr` holds iff `thr ≥ 0` and `‖p − q‖² ≤ thr²`, which is the
rational comparison used here. -/
def spatialOk (cfg : CrossCameraConfig) (p q : ℚ × ℚ) : Bool :=
  decide (0 ≤ cfg.spatial_threshold ∧
    (p.1 - q.1) * (p.1 - q.1) + (p.2 - q.2) * (p.2 - q.2) ≤
      cfg.spatial_threshold * cfg.spatial_threshold)

/-- `np.dot` on feature vectors. -/
def dot (a b : List ℚ) : ℚ := ((a.zip b).map (fun p => p.1 * p.2)).sum

/-- The `1e-8` guard added to the norm product in `_cluster_tracks`. -/
def cosineEps : ℚ := 1 / 100000000

/-- Appearance gate of `_cluster_tracks`.  The code computes
`cosine_sim = dot(a,b) / (‖a‖‖b‖ + 1e-8)` and skips the pair when
`1 - cosine_sim > appearance_threshold`.  Writing `c := 1 - threshold`,
`S := (Σa²)(Σb²)` and `L := dot(a,b) - c·ε`, the pair passes iff
`L ≥ c·√S`; since `√S ≥ 0`, this is decided by sign analysis and squaring:
for `c ≥ 0` it is `L ≥ 0 ∧ L² ≥ c²·S`, for `c < 0` it is `L ≥ 0 ∨ L² ≤ c²·S`.
When either side lacks features the check is skipped (the pair passes). -/
def appearanceOk (cfg : CrossCameraConfig) :
    Option (List ℚ) → Option (List ℚ) → Bool
  | some a, some b =>
      let c : ℚ := 1 - cfg.appearance_threshold
      let L : ℚ := dot a b - c * cosineEps
      let S : ℚ := dot a a * dot b b
      if 0 ≤ c then decide (0 ≤ L ∧ c * c * S ≤ L * L)
      else decide (0 ≤ L ∨ L * L ≤ c * c * S)
  | _, _ => true

/-- Adjacency of `_cluster_tracks`: the code writes `adj_matrix[i, j] =
adj_matrix[j, i] = True` exactly when the cameras differ, the spatial gate
passes and the appearance gate passes (the diagonal stays `False`, which is
subsumed by the camera test). -/
def adjacent (cfg : CrossCameraConfig) (cands : List TrackCandidate)
    (i j : ℕ) : Bool :=
  match cands.get? i, cands.get? j with
  | some ci, some cj =>
      decide (ci.camera_id ≠ cj.camera_id) &&
      spatialOk cfg ci.position cj.position &&
      appearanceOk cfg ci.appearance_features cj.appearance_features
  | _, _ => false

/-- `BEVClusterMerger._dfs`, with explicit recursion fuel.  The Python
recursion always terminates because every call marks a previously
unvisited node; `fuel` bounds the recursion depth and is always called
with `fuel ≥` the number of unvisited nodes (see `dfsFuel_spec`), so the
fuel-exhaustion branch is never taken on the calls the code performs. -/
def dfsFuel (cfg : CrossCameraConfig) (cands : List TrackCandidate) :
    ℕ → ℕ → List Bool × List ℕ → List Bool × List ℕ
  | 0, _, s => s
  | fuel + 1, u, (visited, cluster) =>
      let s1 : List Bool × List ℕ := (visited.set u true, cluster ++ [u])
      (List.range cands.length).foldl
        (fun s v =>
          if adjacent cfg cands u v && !(s.1.getD v true) then
            dfsFuel cfg cands fuel v s
          else s)
        s1

/-- Connected components of `_cluster_tracks`, as lists of candidate
indices, in the discovery order of the Python code. -/
def clusterIndices (cfg : CrossCameraConfig) (cands : List TrackCandidate) :
    List (List ℕ) :=
  let n := cands.length
  ((List.range n).foldl
    (fun (acc : List Bool × List (List ℕ)) i =>
      if acc.1.getD i true then acc
      else
        let r := dfsFuel cfg cands n i (acc.1, [])
        (r.1, acc.2 ++ [r.2]))
    (List.replicate n false, [])).2

/-- `BEVClusterMerger._cluster_tracks`. -/
def clusterTracks (cfg : CrossCameraConfig) (cands : List TrackCandidate) :
    List (List TrackCandidate) :=
  (clusterIndices cfg cands).map (fun c => c.filterMap (fun i => cands.get? i))

/-! ## Fusion engine: global-id assignment -/

/-- Ordering used by `primary_track.positions.sort(key=lambda p: p[2])`. -/
def posLe (p q : ℚ × ℚ × ℚ) : Prop := p.2.2 ≤ q.2.2

instance : DecidableRel posLe := fun p q => inferInstanceAs (Decidable (p.2.2 ≤ q.2.2))

/-- `list.sort(key=lambda p: p[2])` on a position history. -/
def sortByTs (l : List (ℚ × ℚ × ℚ)) : List (ℚ × ℚ × ℚ) :=
  l.insertionSort posLe

/-- Componentwise `np.mean(features, axis=0)` over a nonempty list of
feature vectors (all the code's vectors have one common length). -/
def avgFeatures (fs : List (List ℚ)) : List ℚ :=
  match fs with
  | [] => []
  | f :: t => (t.foldl (fun a b => (a.zip b).map (fun p => p.1 + p.2)) f).map
      (fun x => x / (fs.length : ℚ))

/-- The appearance-feature merge of `_merge_global_tracks`: keep the
primary's features when the other track has none, adopt the other's when
the primary has none, else average the two. -/
def mergeFeat : Option (List ℚ) → Option (List ℚ) → Option (List ℚ)
  | p, none => p
  | none, some o => some o
  | some p, some o => some ((p.zip o).map (fun q => (q.1 + q.2) / 2))

/-- `BEVClusterMerger._create_new_global_track_for_cluster`. -/
def createNewGlobalTrackForCluster (st : MergerState)
    (cluster : List TrackCandidate) (timestamp : ℚ) : ℕ × MergerState :=
  let gid := st.next_global_id
  let avg_x := (cluster.map (fun c => c.position.1)).sum / (cluster.length : ℚ)
  let avg_y := (cluster.map (fun c => c.position.2)).sum / (cluster.length : ℚ)
  let feats := cluster.filterMap (fun c => c.appearance_features)
  let tr : GlobalTrack :=
    { global_id := gid
      camera_tracks := cluster.foldl
        (fun d c => dictSet d c.camera_id c.local_track_id) []
      last_seen := timestamp
      positions := [(avg_x, avg_y, timestamp)]
      appearance_features := if feats.isEmpty then none else some (avgFeatures feats) }
  (gid,
    { st with
        global_tracks := dictSet st.global_tracks gid tr
        next_global_id := gid + 1
        total_tracks_created := st.total_tracks_created + 1 })

/-- One iteration of the `for gid in global_ids` loop of
`_merge_global_tracks`, acting on (primary track, registry, mapping). -/
def mergeGidStep (primary : ℕ)
    (acc : GlobalTrack × List (ℕ × GlobalTrack) × List ((ℕ × ℕ) × ℕ))
    (gid : ℕ) : GlobalTrack × List (ℕ × GlobalTrack) × List ((ℕ × ℕ) × ℕ) :=
  if gid ≠ primary then
    match dictGet acc.2.1 gid with
    | some other =>
        let pt := { acc.1 with
          camera_tracks := dictUpdate acc.1.camera_tracks other.camera_tracks
          positions := acc.1.positions ++ other.positions
          appearance_features :=
            mergeFeat acc.1.appearance_features other.appearance_features }
        let mp := other.camera_tracks.foldl
          (fun m ct => dictSet m (ct.1, ct.2) primary) acc.2.2
        (pt, dictDel acc.2.1 gid, mp)
    | none => acc
  else acc

/-- `BEVClusterMerger._merge_global_tracks`.  The Python iterates a
`set[str]`, whose order is unspecified; the model takes the ids as a list
in an arbitrary order.  `min(global_ids, key=int)` is the numeric minimum.
`self.global_tracks[primary_id]` raises `KeyError` when the primary id is
not in the registry, modelled by `none`. -/
def mergeGlobalTracksFn (st : MergerState) (global_ids : List ℕ)
    (timestamp : ℚ) : Option (ℕ × MergerState) :=
  match global_ids.min? with
  | none => none
  | some primary =>
    match dictGet st.global_tracks primary with
    | none => none
    | some primaryTrack =>
        let r := global_ids.foldl (mergeGidStep primary)
          (primaryTrack, st.global_tracks, st.track_id_mapping)
        let pt := { r.1 with positions := sortByTs r.1.positions,
                             last_seen := timestamp }
        some (primary,
          { st with
              global_tracks := dictSet r.2.1 primary pt
              track_id_mapping := r.2.2 })

/-- `BEVClusterMerger._cleanup_old_tracks`: collect the expired entries in
registry order, delete their membership keys from the reverse mapping, then
delete the expired ids from the registry. -/
def cleanupOldTracks (cfg : CrossCameraConfig) (st : MergerState)
    (current_timestamp : ℚ) : MergerState :=
  let expired := st.global_tracks.filter
    (fun p => decide (current_timestamp - p.2.last_seen > cfg.max_track_age_s))
  let mapping := expired.foldl
    (fun m p => p.2.camera_tracks.foldl (fun m ct => dictDel m (ct.1, ct.2)) m)
    st.track_id_mapping
  let gts := expired.foldl (fun g p => dictDel g p.1) st.global_tracks
  { st with global_tracks := gts, track_id_mapping := mapping }

/-- The `existing_global_ids` set of `_assign_global_ids_to_clusters`,
as a duplicate-free list (first-occurrence order). -/
def existingGlobalIds (st : MergerState) (cluster : List TrackCandidate) :
    List ℕ :=
  cluster.foldl
    (fun acc c =>
      match dictGet st.track_id_mapping (c.camera_id, c.local_track_id) with
      | some g => if g ∈ acc then acc else acc ++ [g]
      | none => acc)
    []

/-- Processing of one cluster inside `_assign_global_ids_to_clusters`. -/
def assignCluster (acc : List BEVTrack × MergerState)
    (cluster : List TrackCandidate) (timestamp : ℚ) :
    Option (List BEVTrack × MergerState) :=
  match cluster with
  | [candidate] =>
      let key := (candidate.camera_id, candidate.local_track_id)
      match dictGet acc.2.track_id_mapping key with
      | some gid =>
          let st :=
            match dictGet acc.2.global_tracks gid with
            | some tr =>
                { acc.2 with global_tracks := dictSet acc.2.global_tracks gid { tr with
                    last_seen := timestamp,
                    positions := tr.positions ++
                      [(candidate.position.1, candidate.position.2,
                        timestamp)] } }
            | none => acc.2
          some (acc.1 ++ [{ candidate.original_bev_track with global_id := some gid }], st)
      | none =>
          let r := createNewGlobalTrackForCluster acc.2 cluster timestamp
          let st := { r.2 with
            track_id_mapping := dictSet r.2.track_id_mapping key r.1 }
          some (acc.1 ++ [{ candidate.original_bev_track with global_id := some r.1 }], st)
  | _ =>
      let existing := existingGlobalIds acc.2 cluster
      let r : Option (ℕ × MergerState) :=
        if existing.isEmpty then some (createNewGlobalTrackForCluster acc.2 cluster timestamp)
        else (mergeGlobalTracksFn acc.2 existing timestamp).map
          (fun p => (p.1, { p.2 with
            multi_camera_associations := p.2.multi_camera_associations + 1 }))
      match r with
      | none => none
      | some (primary, st) =>
          some (cluster.foldl
            (fun acc2 c =>
              (acc2.1 ++ [{ c.original_bev_track with global_id := some primary }],
               { acc2.2 with track_id_mapping :=
                  (dictSet acc2.2.track_id_mapping
                    (c.camera_id, c.local_track_id) primary) }))
            (acc.1, st))

/-- `BEVClusterMerger._assign_global_ids_to_clusters`. -/
def assignGlobalIdsToClusters (st : MergerState)
    (clusters : List (List TrackCandidate)) (timestamp : ℚ) :
    Option (List BEVTrack × MergerState) :=
  clusters.foldl
    (fun acc cluster =>
      match acc with
      | none => none
      | some a => assignCluster a cluster timestamp)
    (some ([], st))

/-- Candidate construction at the top of `BEVClusterMerger.merge`;
`reid_features` is keyed by the (camera-independent) local track id. -/
def buildCandidates (bev_tracks : List BEVTrack)
    (reid_features : List (ℕ × List ℚ)) : List TrackCandidate :=
  bev_tracks.map (fun t =>
    { camera_id := t.camera_id
      local_track_id := t.track_id
      position := (t.bev_x, t.bev_y)
      appearance_features := dictGet reid_features t.track_id
      original_bev_track := t })

/-- `BEVClusterMerger.merge`: one fusion cycle. -/
def mergeStep (cfg : CrossCameraConfig) (st : MergerState)
    (bev_tracks : List BEVTrack) (timestamp : ℚ)
    (reid_features : List (ℕ × List ℚ)) :
    Option (List BEVTrack × MergerState) :=
  let st := cleanupOldTracks cfg st timestamp
  let cands := buildCandidates bev_tracks reid_features
  let clusters := clusterTracks cfg cands
  assignGlobalIdsToClusters st clusters timestamp

/-! ## Concrete fusion scenarios

A three-track chain: camera 0 track 1 at (0,0), camera 1 track 2 at (1,0),
camera 0 track 3 at (2,0), with `spatial_threshold = 1`.  The two edges
(0,1)–(1,2) and (1,2)–(0,3) are cross-camera and within threshold, so the
three tracks form one connected component even though tracks 1 and 3 come
from the same camera. -/

def chainCfg : CrossCameraConfig :=
  { spatial_threshold := 1, appearance_threshold := 2 / 5, max_track_age_s := 10 }

def trkA : BEVTrack := { track_id := 1, bev_x := 0, bev_y := 0, camera_id := 0 }

def trkB : BEVTrack := { track_id := 2, bev_x := 1, bev_y := 0, camera_id := 1 }

def trkC : BEVTrack := { track_id := 3, bev_x := 2, bev_y := 0, camera_id := 0 }

/-- Cycle 1 of the chain scenario. -/
def chainCycle1 : Option (List BEVTrack × MergerState) :=
  mergeStep chainCfg initialMergerState [trkA, trkB, trkC] 0 []

/-- Cycle 2 of the chain scenario: an empty input batch at `t = 100`,
far beyond `max_track_age_s = 10`, so the global track of cycle 1 expires. -/
def chainCycle2 : Option (List BEVTrack × MergerState) :=
  chainCycle1.bind (fun p => mergeStep chainCfg p.2 [] 100 [])

/-- C1's claimed property of one fusion cycle's output: tracks of the same
camera never carry the same global id (two tracks of one camera are
distinguished by their local track id). -/
def sameCameraDistinctGid (out : List BEVTrack) : Prop :=
  ∀ a ∈ out, ∀ b ∈ out,
    a.camera_id = b.camera_id → a.global_id = b.global_id →
      a.track_id = b.track_id

instance (out : List BEVTrack) : Decidable (sameCameraDistinctGid out) := by
  unfold sameCameraDistinctGid; infer_instance

/-- C1 is false on the code: in the chain scenario, the single fusion cycle
`chainCycle1` assigns global id 1 to both camera-0 tracks (local ids 1 and
3), which are joined only transitively through camera 1's track. -/
theorem C1_counterexample :
    chainCycle1.map (fun p => decide (sameCameraDistinctGid p.1)) = some false := by
  with_unfolding_all decide

/-- C1 amended: the pairwise matching itself never links two tracks of the
same camera — every edge of the candidate graph connects tracks of
different cameras (same-camera tracks can still share a global id
transitively, as `C1_counterexample` shows). -/
theorem C1_amended (cfg : CrossCameraConfig) (cands : List TrackCandidate)
    (i j : ℕ) (ci cj : TrackCandidate)
    (hi : cands.get? i = some ci) (hj : cands.get? j = some cj)
    (hadj : adjacent cfg cands i j = true) :
    ci.camera_id ≠ cj.camera_id := by
  unfold adjacent at hadj
  rw [hi, hj] at hadj
  simp only [Bool.and_eq_true, decide_eq_true_eq] at hadj
  exact hadj.1.1

/-- The candidate list of the two-track cross-camera scenario. -/
def pairCands : List TrackCandidate := buildCandidates [trkA, trkB] []

/-- Candidate 0 of `pairCands`. -/
def pairCand0 : TrackCandidate :=
  { camera_id := 0, local_track_id := 1, position := (0, 0),
    appearance_features := none, original_bev_track := trkA }

/-- Candidate 1 of `pairCands`. -/
def pairCand1 : TrackCandidate :=
  { camera_id := 1, local_track_id := 2, position := (1, 0),
    appearance_features := none, original_bev_track := trkB }

/-- Witness for `C1_amended` at a concrete pair of adjacent candidates. -/
theorem C1_amended_witness :
    adjacent chainCfg pairCands 0 1 = true ∧
    pairCand0.camera_id ≠ pairCand1.camera_id :=
  ⟨by with_unfolding_all decide,
   C1_amended chainCfg pairCands 0 1 pairCand0 pairCand1
    (by with_unfolding_all decide) (by with_unfolding_all decide)
    (by with_unfolding_all decide)⟩

/-! ## C5: expiry leaves stale reverse mappings

In `chainCycle1` the cluster {(0,1), (1,2), (0,3)} creates global track 1
whose `camera_tracks` dict keeps only the *last* member per camera:
`{0: 3, 1: 2}`.  The reverse mapping, however, received entries for all
three members.  `_cleanup_old_tracks` removes only the mapping keys listed
in `camera_tracks`, so the entry `(0,1) ↦ 1` survives the expiry of global
track 1. -/

/-- C5 is false on the code: at the start of the second cycle global track
1 (last seen at 0) is older than `max_track_age_s = 10`; the expiry step
removes it from the registry, but the reverse-mapping entry `(0,1) ↦ 1`
survives, a stale mapping to the expired id. -/
theorem C5_counterexample :
    chainCycle1.map (fun p =>
      decide ((dictGet p.2.global_tracks 1).map GlobalTrack.last_seen = some 0 ∧
        (let st := cleanupOldTracks chainCfg p.2 100
         dictGet st.global_tracks 1 = none ∧
         dictGet st.track_id_mapping (0, 1) = some 1))) = some true := by
  with_unfolding_all decide

/-! ## C4: merging leaves stale reverse mappings

Cycle 1 on `[trkD, trkA, trkB, trkC]` creates global track 1 for the far
singleton (0,7) and global track 2 for the chain cluster; the reverse
mapping holds `(0,1) ↦ 2`, `(1,2) ↦ 2`, `(0,3) ↦ 2`, but track 2's
`camera_tracks` dict only lists `{0: 3, 1: 2}`.  Cycle 2 clusters (0,7)
with (1,2), so global ids {1, 2} merge into 1; `_merge_global_tracks`
redirects only the mapping keys listed in track 2's `camera_tracks`, so
`(0,1) ↦ 2` keeps pointing at the deleted id 2. -/

def trkD : BEVTrack := { track_id := 7, bev_x := 100, bev_y := 0, camera_id := 0 }

def trkE : BEVTrack := { track_id := 2, bev_x := 100, bev_y := 1, camera_id := 1 }

/-- Cycle 1 of the merge scenario. -/
def mergeCycle1 : Option (List BEVTrack × MergerState) :=
  mergeStep chainCfg initialMergerState [trkD, trkA, trkB, trkC] 0 []

/-- Cycle 2 of the merge scenario: (0,7) and (1,2) now cluster together,
forcing a merge of global ids 1 and 2. -/
def mergeCycle2 : Option (List BEVTrack × MergerState) :=
  mergeCycle1.bind (fun p => mergeStep chainCfg p.2 [trkD, trkE] 1 [])

/-- C4 is false on the code: after the cycle-2 merge of global ids {1, 2}
into 1, id 2 is removed from the registry, yet the reverse-mapping entry
`(0,1) ↦ 2` still points to the removed id instead of being redirected to
the surviving id 1. -/
theorem C4_counterexample :
    mergeCycle2.map (fun p =>
      decide (dictGet p.2.global_tracks 2 = none ∧
        dictGet p.2.global_tracks 1 ≠ none ∧
        dictGet p.2.track_id_mapping (0, 1) = some 2)) = some true := by
  with_unfolding_all decide

/-! ## Dictionary and fold lemmas -/

theorem foldl_preserve {σ α : Type} {P : σ → Prop} {f : σ → α → σ} :
    ∀ (L : List α) (s : σ), (∀ s a, a ∈ L → P s → P (f s a)) → P s →
      P (L.foldl f s)
  | [], s, _, h0 => h0
  | a :: t, s, h, h0 =>
      foldl_preserve t (f s a) (fun s' a' ha' => h s' a' (List.mem_cons_of_mem a ha'))
        (h s a (List.mem_cons_self a t) h0)

/-- A property established by processing `a0 ∈ L` (from an invariant `Q`)
and preserved by all later steps holds of the whole fold. -/
theorem foldl_establish {σ α : Type} {Q P : σ → Prop} {f : σ → α → σ} :
    ∀ (L : List α) (s : σ) (a0 : α), a0 ∈ L →
      (∀ s a, a ∈ L → Q s → Q (f s a)) →
      (∀ s a, a ∈ L → P s → P (f s a)) →
      (∀ s, Q s → P (f s a0)) →
      Q s → P (L.foldl f s)
  | a :: t, s, a0, ha0, hQ, hP, hE, hq => by
      rcases List.mem_cons.mp ha0 with h | h
      · subst h
        exact foldl_preserve t (f s a0)
          (fun s' a' ha' => hP s' a' (List.mem_cons_of_mem _ ha')) (hE s hq)
      · exact foldl_establish t (f s a) a0 h
          (fun s' a' ha' => hQ s' a' (List.mem_cons_of_mem _ ha'))
          (fun s' a' ha' => hP s' a' (List.mem_cons_of_mem _ ha'))
          hE (hQ s a (List.mem_cons_self a t) hq)

section DictLemmas

variable [DecidableEq κ]

theorem dictGet_mem {l : List (κ × β)} {k : κ} {v : β}
    (h : dictGet l k = some v) : (k, v) ∈ l := by
  induction l with
  | nil => simp [dictGet] at h
  | cons p t ih =>
      obtain ⟨a, b⟩ := p
      by_cases hk : a = k
      · subst hk
        simp [dictGet] at h
        simp [h]
      · simp only [dictGet, if_neg hk] at h
        exact List.mem_cons_of_mem _ (ih h)

theorem dictGet_eq_none_iff {l : List (κ × β)} {k : κ} :
    dictGet l k = none ↔ k ∉ dictKeys l := by
  induction l with
  | nil => simp [dictGet, dictKeys]
  | cons p t ih =>
      obtain ⟨a, b⟩ := p
      by_cases hk : a = k
      · subst hk
        simp [dictGet, dictKeys]
      · simp [dictGet, dictKeys, hk, ih, Ne.symm hk]

theorem dictGet_dictSet_self {l : List (κ × β)} {k : κ} {v : β} :
    dictGet (dictSet l k v) k = some v := by
  induction l with
  | nil => simp [dictGet, dictSet]
  | cons p t ih =>
      obtain ⟨a, b⟩ := p
      by_cases hk : a = k
      · subst hk
        simp [dictSet, dictGet]
      · simp [dictSet, hk, dictGet, ih]

theorem dictGet_dictSet_ne {l : List (κ × β)} {k k' : κ} {v : β}
    (h : k' ≠ k) : dictGet (dictSet l k v) k' = dictGet l k' := by
  induction l with
  | nil => simp [dictGet, dictSet, Ne.symm h]
  | cons p t ih =>
      obtain ⟨a, b⟩ := p
      by_cases hk : a = k
      · subst hk
        simp [dictSet, dictGet, Ne.symm h]
      · simp [dictSet, hk, dictGet, ih]

theorem dictGet_dictDel_ne {l : List (κ × β)} {k k' : κ}
    (h : k' ≠ k) : dictGet (dictDel l k) k' = dictGet l k' := by
  induction l with
  | nil => simp [dictDel]
  | cons p t ih =>
      obtain ⟨a, b⟩ := p
      by_cases hk : a = k
      · subst hk
        simp [dictDel, dictGet, Ne.symm h]
      · simp [dictDel, hk, dictGet, ih]

theorem dictKeys_dictDel_sublist (l : List (κ × β)) (k : κ) :
    (dictKeys (dictDel l k)).Sublist (dictKeys l) := by
  induction l with
  | nil => simp [dictDel, dictKeys]
  | cons p t ih =>
      obtain ⟨a, b⟩ := p
      by_cases hk : a = k
      · subst hk
        simp only [dictDel, if_pos rfl, dictKeys, List.map_cons]
        exact List.sublist_cons_self _ _
      · simp only [dictDel, if_neg hk, dictKeys, List.map_cons]
        exact (ih : _).cons₂ a

theorem nodup_dictKeys_dictDel {l : List (κ × β)} {k : κ}
    (h : (dictKeys l).Nodup) : (dictKeys (dictDel l k)).Nodup :=
  (dictKeys_dictDel_sublist l k).nodup h

theorem dictGet_dictDel_self {l : List (κ × β)} {k : κ}
    (h : (dictKeys l).Nodup) : dictGet (dictDel l k) k = none := by
  induction l with
  | nil => simp [dictDel, dictGet]
  | cons p t ih =>
      obtain ⟨a, b⟩ := p
      by_cases hk : a = k
      · subst hk
        simp only [dictDel, if_pos rfl]
        rw [dictGet_eq_none_iff]
        simp only [dictKeys, List.map_cons, List.nodup_cons] at h
        exact h.1
      · simp only [dictDel, if_neg hk, dictGet, if_neg hk]
        apply ih
        simp only [dictKeys, List.map_cons, List.nodup_cons] at h
        exact h.2

theorem dictGet_dictDel_none {l : List (κ × β)} {k k' : κ}
    (h : dictGet l k' = none) : dictGet (dictDel l k) k' = none := by
  by_cases hk : k' = k
  · subst hk
    rw [dictGet_eq_none_iff] at h ⊢
    exact fun hmem => h ((dictKeys_dictDel_sublist l _).mem hmem)
  · rwa [dictGet_dictDel_ne hk]

theorem dictKeys_dictSet_mem {l : List (κ × β)} {k k' : κ} {v : β} :
    k' ∈ dictKeys (dictSet l k v) ↔ k' ∈ dictKeys l ∨ k' = k := by
  induction l with
  | nil => simp [dictSet, dictKeys]
  | cons p t ih =>
      obtain ⟨a, b⟩ := p
      by_cases hk : a = k
      · subst hk
        simp [dictSet, dictKeys]
        tauto
      · simp only [dictSet, if_neg hk, dictKeys, List.map_cons, List.mem_cons]
        constructor
        · rintro (h | h)
          · exact Or.inl (Or.inl h)
          · rcases (ih.mp h) with h2 | h2
            · exact Or.inl (Or.inr h2)
            · exact Or.inr h2
        · rintro ((h | h) | h)
          · exact Or.inl h
          · exact Or.inr (ih.mpr (Or.inl h))
          · exact Or.inr (ih.mpr (Or.inr h))

end DictLemmas

/-- C5 amended: the expiry step removes every expired global track from the
registry, and removes exactly the reverse-mapping entries listed in the
expired track's `camera_tracks` membership dict.  (A reverse-mapping entry
whose `(camera, local id)` pair is *not* listed there — possible because
`camera_tracks` keeps only one local id per camera — survives, as
`C5_counterexample` shows.) -/
theorem C5_amended (cfg : CrossCameraConfig) (st : MergerState) (now : ℚ)
    (gid : ℕ) (tr : GlobalTrack)
    (hg : (dictKeys st.global_tracks).Nodup)
    (hm : (dictKeys st.track_id_mapping).Nodup)
    (hget : dictGet st.global_tracks gid = some tr)
    (hexp : now - tr.last_seen > cfg.max_track_age_s) :
    dictGet (cleanupOldTracks cfg st now).global_tracks gid = none ∧
    ∀ ct ∈ tr.camera_tracks,
      dictGet (cleanupOldTracks cfg st now).track_id_mapping (ct.1, ct.2) = none := by
  have hmem : (gid, tr) ∈ st.global_tracks.filter
      (fun p => decide (now - p.2.last_seen > cfg.max_track_age_s)) := by
    refine List.mem_filter.mpr ⟨dictGet_mem hget, ?_⟩
    simpa using hexp
  constructor
  · have hreg := foldl_establish
      (Q := fun g : List (ℕ × GlobalTrack) => (dictKeys g).Nodup)
      (P := fun g => dictGet g gid = none)
      (f := fun g p => dictDel g p.1)
      (st.global_tracks.filter
        (fun p => decide (now - p.2.last_seen > cfg.max_track_age_s)))
      st.global_tracks (gid, tr) hmem
      (fun _ _ _ hq => nodup_dictKeys_dictDel hq)
      (fun _ _ _ hp => dictGet_dictDel_none hp)
      (fun _ hq => dictGet_dictDel_self hq)
      hg
    simpa [cleanupOldTracks] using hreg
  · intro ct hct
    have hmap := foldl_establish
      (Q := fun m : List ((ℕ × ℕ) × ℕ) => (dictKeys m).Nodup)
      (P := fun m => dictGet m (ct.1, ct.2) = none)
      (f := fun m p => p.2.camera_tracks.foldl
        (fun m2 ct' => dictDel m2 (ct'.1, ct'.2)) m)
      (st.global_tracks.filter
        (fun p => decide (now - p.2.last_seen > cfg.max_track_age_s)))
      st.track_id_mapping (gid, tr) hmem
      (fun s a _ hq => foldl_preserve
        (P := fun m : List ((ℕ × ℕ) × ℕ) => (dictKeys m).Nodup)
        (f := fun m2 ct' => dictDel m2 (ct'.1, ct'.2))
        a.2.camera_tracks s
        (fun _ _ _ hq' => nodup_dictKeys_dictDel hq') hq)
      (fun s a _ hp => foldl_preserve
        (P := fun m : List ((ℕ × ℕ) × ℕ) => dictGet m (ct.1, ct.2) = none)
        (f := fun m2 ct' => dictDel m2 (ct'.1, ct'.2))
        a.2.camera_tracks s
        (fun _ _ _ hp' => dictGet_dictDel_none hp') hp)
      (fun s hq => foldl_establish
        (Q := fun m : List ((ℕ × ℕ) × ℕ) => (dictKeys m).Nodup)
        (P := fun m : List ((ℕ × ℕ) × ℕ) => dictGet m (ct.1, ct.2) = none)
        (f := fun m2 ct' => dictDel m2 (ct'.1, ct'.2))
        tr.camera_tracks s ct hct
        (fun _ _ _ hq' => nodup_dictKeys_dictDel hq')
        (fun _ _ _ hp' => dictGet_dictDel_none hp')
        (fun _ hq' => dictGet_dictDel_self hq') hq)
      hm
    simpa [cleanupOldTracks] using hmap

/-- A concrete state with an expired global track, used as witness input:
global track 1 (last seen at time 0) with membership `{0: 3, 1: 2}` and
reverse mappings for (0,1), (1,2) and (0,3). -/
def expiredWitnessTrack : GlobalTrack :=
  { global_id := 1, camera_tracks := [(0, 3), (1, 2)], last_seen := 0,
    positions := [(1, 0, 0)] }

def expiredWitnessState : MergerState :=
  { global_tracks := [(1, expiredWitnessTrack)]
    next_global_id := 2
    track_id_mapping := [((0, 1), 1), ((1, 2), 1), ((0, 3), 1)]
    total_tracks_created := 1
    multi_camera_associations := 0 }

/-- Witness for `C5_amended` at time 100 on `expiredWitnessState`. -/
theorem C5_amended_witness :
    (dictKeys expiredWitnessState.global_tracks).Nodup ∧
    dictGet expiredWitnessState.global_tracks 1 = some expiredWitnessTrack ∧
    (100 : ℚ) - expiredWitnessTrack.last_seen > chainCfg.max_track_age_s ∧
    (dictGet (cleanupOldTracks chainCfg expiredWitnessState 100).global_tracks 1
        = none ∧
     ∀ ct ∈ expiredWitnessTrack.camera_tracks,
       dictGet (cleanupOldTracks chainCfg expiredWitnessState 100).track_id_mapping
         (ct.1, ct.2) = none) :=
  ⟨by with_unfolding_all decide, by with_unfolding_all decide,
   by with_unfolding_all decide,
   C5_amended chainCfg expiredWitnessState 100 1 expiredWitnessTrack
     (by with_unfolding_all decide) (by with_unfolding_all decide)
     (by with_unfolding_all decide) (by with_unfolding_all decide)⟩

/-! ## C4: the merge operation `_merge_global_tracks` -/

theorem dictGet_dictSet_preserve [DecidableEq κ] {m : List (κ × β)}
    {k k' : κ} {v : β} (h : dictGet m k = some v) :
    dictGet (dictSet m k' v) k = some v := by
  by_cases hk : k = k'
  · subst hk; exact dictGet_dictSet_self
  · rwa [dictGet_dictSet_ne hk]

theorem dictKeys_dictUpdate_mem [DecidableEq κ] {d o : List (κ × β)} {k : κ} :
    k ∈ dictKeys (dictUpdate d o) ↔ k ∈ dictKeys d ∨ k ∈ dictKeys o := by
  induction o generalizing d with
  | nil => simp [dictUpdate, dictKeys]
  | cons p t ih =>
      obtain ⟨a, b⟩ := p
      show k ∈ dictKeys (dictUpdate (dictSet d a b) t) ↔ _
      rw [ih, dictKeys_dictSet_mem]
      simp only [dictKeys, List.map_cons, List.mem_cons]
      tauto

theorem mergeGidStep_self (primary : ℕ)
    (acc : GlobalTrack × List (ℕ × GlobalTrack) × List ((ℕ × ℕ) × ℕ)) :
    mergeGidStep primary acc primary = acc := by
  simp [mergeGidStep]

/-- Every mapping write of `_merge_global_tracks` stores the primary id, so
a mapping entry that already holds the primary id keeps it. -/
theorem mergeGidStep_mapping_preserve (primary : ℕ)
    (acc : GlobalTrack × List (ℕ × GlobalTrack) × List ((ℕ × ℕ) × ℕ))
    (g : ℕ) (k : ℕ × ℕ) (h : dictGet acc.2.2 k = some primary) :
    dictGet (mergeGidStep primary acc g).2.2 k = some primary := by
  unfold mergeGidStep
  by_cases hg : g ≠ primary
  · simp only [if_pos hg]
    cases hother : dictGet acc.2.1 g with
    | none => simpa using h
    | some other =>
        simp only
        exact foldl_preserve
          (P := fun m : List ((ℕ × ℕ) × ℕ) => dictGet m k = some primary)
          (f := fun m ct => dictSet m (ct.1, ct.2) primary)
          other.camera_tracks acc.2.2
          (fun _ _ _ hp => dictGet_dictSet_preserve hp) h
  · simpa [hg] using h

/-- Unfolding of one `_merge_global_tracks` loop iteration on a non-primary
id that is present in the registry. -/
theorem mergeGidStep_ne (primary : ℕ)
    (acc : GlobalTrack × List (ℕ × GlobalTrack) × List ((ℕ × ℕ) × ℕ))
    (g : ℕ) (other : GlobalTrack) (hg : g ≠ primary)
    (hother : dictGet acc.2.1 g = some other) :
    mergeGidStep primary acc g =
      ({ acc.1 with
          camera_tracks := dictUpdate acc.1.camera_tracks other.camera_tracks,
          positions := acc.1.positions ++ other.positions,
          appearance_features :=
            mergeFeat acc.1.appearance_features other.appearance_features },
       dictDel acc.2.1 g,
       other.camera_tracks.foldl
         (fun m ct => dictSet m (ct.1, ct.2) primary) acc.2.2) := by
  simp [mergeGidStep, hg, hother]

/-- Unfolding of one `_merge_global_tracks` loop iteration on a non-primary
id that is absent from the registry (the `gid in self.global_tracks` guard
fails and nothing happens). -/
theorem mergeGidStep_none (primary : ℕ)
    (acc : GlobalTrack × List (ℕ × GlobalTrack) × List ((ℕ × ℕ) × ℕ))
    (g : ℕ) (hg : g ≠ primary) (hother : dictGet acc.2.1 g = none) :
    mergeGidStep primary acc g = acc := by
  simp [mergeGidStep, hg, hother]

/-- Registry effect of the `_merge_global_tracks` loop: keys stay
duplicate-free, ids outside the processed list (and the primary id) keep
their entries, and every processed non-primary id present at the start is
deleted. -/
theorem mergeGidFold_registry (primary : ℕ) :
    ∀ (A : List ℕ)
      (acc : GlobalTrack × List (ℕ × GlobalTrack) × List ((ℕ × ℕ) × ℕ)),
      A.Nodup → (dictKeys acc.2.1).Nodup →
      ((dictKeys (A.foldl (mergeGidStep primary) acc).2.1).Nodup ∧
       (∀ g', g' ∉ A →
         dictGet (A.foldl (mergeGidStep primary) acc).2.1 g' =
           dictGet acc.2.1 g') ∧
       dictGet (A.foldl (mergeGidStep primary) acc).2.1 primary =
         dictGet acc.2.1 primary ∧
       (∀ g ∈ A, g ≠ primary →
         dictGet (A.foldl (mergeGidStep primary) acc).2.1 g = none))
  | [], acc, _, hk => ⟨hk, fun _ _ => rfl, rfl, by simp⟩
  | g :: rest, acc, hnd, hk => by
      obtain ⟨hgrest, hndrest⟩ := List.nodup_cons.mp hnd
      by_cases hg : g = primary
      · subst hg
        rw [List.foldl_cons, mergeGidStep_self]
        obtain ⟨ih1, ih2, ih3, ih4⟩ := mergeGidFold_registry g rest acc hndrest hk
        refine ⟨ih1, fun g' hg' => ih2 g' (fun h => hg' (List.mem_cons_of_mem _ h)),
          ih3, ?_⟩
        intro g' hg' hne
        rcases List.mem_cons.mp hg' with h | h
        · exact absurd h hne
        · exact ih4 g' h hne
      · cases hother : dictGet acc.2.1 g with
        | none =>
            rw [List.foldl_cons, mergeGidStep_none primary acc g hg hother]
            obtain ⟨ih1, ih2, ih3, ih4⟩ := mergeGidFold_registry primary rest acc hndrest hk
            refine ⟨ih1, fun g' hg' => ih2 g' (fun h => hg' (List.mem_cons_of_mem _ h)),
              ih3, ?_⟩
            intro g' hg' hne
            rcases List.mem_cons.mp hg' with h | h
            · subst h
              rw [ih2 g' hgrest]
              exact hother
            · exact ih4 g' h hne
        | some other =>
            rw [List.foldl_cons, mergeGidStep_ne primary acc g other hg hother]
            obtain ⟨ih1, ih2, ih3, ih4⟩ := mergeGidFold_registry primary rest
              ({ acc.1 with
                  camera_tracks := dictUpdate acc.1.camera_tracks other.camera_tracks,
                  positions := acc.1.positions ++ other.positions,
                  appearance_features :=
                    mergeFeat acc.1.appearance_features other.appearance_features },
               dictDel acc.2.1 g,
               other.camera_tracks.foldl
                 (fun m ct => dictSet m (ct.1, ct.2) primary) acc.2.2)
              hndrest (nodup_dictKeys_dictDel hk)
            refine ⟨ih1, ?_, ?_, ?_⟩
            · intro g' hg'
              have hne : g' ≠ g := fun h => hg' (h ▸ List.mem_cons_self g rest)
              rw [ih2 g' (fun h => hg' (List.mem_cons_of_mem _ h))]
              exact dictGet_dictDel_ne hne
            · rw [ih3]
              exact dictGet_dictDel_ne (Ne.symm hg)
            · intro g' hg' hne
              rcases List.mem_cons.mp hg' with h | h
              · subst h
                rw [ih2 g' hgrest]
                exact dictGet_dictDel_self hk
              · exact ih4 g' h hne

/-- Position-history effect of the `_merge_global_tracks` loop: the
accumulated track's history is the initial history followed by the
histories of the processed non-primary registry entries, in processing
order. -/
theorem mergeGidFold_positions (primary : ℕ) :
    ∀ (A : List ℕ)
      (acc : GlobalTrack × List (ℕ × GlobalTrack) × List ((ℕ × ℕ) × ℕ)),
      A.Nodup →
      (A.foldl (mergeGidStep primary) acc).1.positions = acc.1.positions ++
        ((A.filter (fun g => decide (g ≠ primary))).map
          (fun g => ((dictGet acc.2.1 g).map GlobalTrack.positions).getD [])).flatten
  | [], acc, _ => by simp
  | g :: rest, acc, hnd => by
      obtain ⟨hgrest, hndrest⟩ := List.nodup_cons.mp hnd
      by_cases hg : g = primary
      · subst hg
        rw [List.foldl_cons, mergeGidStep_self,
          mergeGidFold_positions g rest acc hndrest]
        simp [List.filter_cons]
      · cases hother : dictGet acc.2.1 g with
        | none =>
            rw [List.foldl_cons, mergeGidStep_none primary acc g hg hother,
              mergeGidFold_positions primary rest acc hndrest]
            simp [List.filter_cons, hg, hother]
        | some other =>
            rw [List.foldl_cons, mergeGidStep_ne primary acc g other hg hother,
              mergeGidFold_positions primary rest _ hndrest]
            dsimp only
            have hmap : (rest.filter (fun g' => decide (g' ≠ primary))).map
                (fun g' => ((dictGet (dictDel acc.2.1 g) g').map
                  GlobalTrack.positions).getD []) =
                (rest.filter (fun g' => decide (g' ≠ primary))).map
                (fun g' => ((dictGet acc.2.1 g').map GlobalTrack.positions).getD []) := by
              apply List.map_congr_left
              intro g' hmem
              have hg'rest : g' ∈ rest := (List.mem_filter.mp hmem).1
              rw [dictGet_dictDel_ne (fun h : g' = g => hgrest (h ▸ hg'rest))]
            rw [hmap]
            simp [List.filter_cons, hg, hother, List.append_assoc]

/-- Membership congruence for a bounded existential over a list. -/
theorem exists_mem_congr {α : Type} {l : List α} {P Q : α → Prop}
    (h : ∀ g ∈ l, P g ↔ Q g) : (∃ g ∈ l, P g) ↔ (∃ g ∈ l, Q g) := by
  constructor <;> rintro ⟨g, hgl, hp⟩
  · exact ⟨g, hgl, (h g hgl).mp hp⟩
  · exact ⟨g, hgl, (h g hgl).mpr hp⟩

/-- Membership effect of the `_merge_global_tracks` loop on the accumulated
track's camera membership dict: the key set is the union of the initial key
set with the key sets of the processed non-primary registry entries. -/
theorem mergeGidFold_camkeys (primary : ℕ) :
    ∀ (A : List ℕ)
      (acc : GlobalTrack × List (ℕ × GlobalTrack) × List ((ℕ × ℕ) × ℕ)),
      A.Nodup → ∀ cam,
      (cam ∈ dictKeys (A.foldl (mergeGidStep primary) acc).1.camera_tracks ↔
       cam ∈ dictKeys acc.1.camera_tracks ∨
       ∃ g ∈ A, g ≠ primary ∧ ∃ tr, dictGet acc.2.1 g = some tr ∧
         cam ∈ dictKeys tr.camera_tracks)
  | [], acc, _, cam => by simp
  | g :: rest, acc, hnd, cam => by
      obtain ⟨hgrest, hndrest⟩ := List.nodup_cons.mp hnd
      by_cases hg : g = primary
      · subst hg
        rw [List.foldl_cons, mergeGidStep_self,
          mergeGidFold_camkeys g rest acc hndrest cam]
        constructor
        · rintro (h | ⟨g', hgl, hne, htr⟩)
          · exact Or.inl h
          · exact Or.inr ⟨g', List.mem_cons_of_mem _ hgl, hne, htr⟩
        · rintro (h | ⟨g', hgl, hne, htr⟩)
          · exact Or.inl h
          · rcases List.mem_cons.mp hgl with h' | h'
            · exact absurd h' hne
            · exact Or.inr ⟨g', h', hne, htr⟩
      · cases hother : dictGet acc.2.1 g with
        | none =>
            rw [List.foldl_cons, mergeGidStep_none primary acc g hg hother,
              mergeGidFold_camkeys primary rest acc hndrest cam]
            constructor
            · rintro (h | ⟨g', hgl, hne, htr⟩)
              · exact Or.inl h
              · exact Or.inr ⟨g', List.mem_cons_of_mem _ hgl, hne, htr⟩
            · rintro (h | ⟨g', hgl, hne, tr, htr, hcam⟩)
              · exact Or.inl h
              · rcases List.mem_cons.mp hgl with h' | h'
                · subst h'
                  rw [hother] at htr
                  cases htr
                · exact Or.inr ⟨g', h', hne, tr, htr, hcam⟩
        | some other =>
            rw [List.foldl_cons, mergeGidStep_ne primary acc g other hg hother,
              mergeGidFold_camkeys primary rest _ hndrest cam]
            dsimp only
            have hrest : (∃ g' ∈ rest, g' ≠ primary ∧ ∃ tr,
                dictGet (dictDel acc.2.1 g) g' = some tr ∧
                  cam ∈ dictKeys tr.camera_tracks) ↔
                (∃ g' ∈ rest, g' ≠ primary ∧ ∃ tr,
                  dictGet acc.2.1 g' = some tr ∧
                    cam ∈ dictKeys tr.camera_tracks) :=
              exists_mem_congr (fun g' hmem => by
                rw [dictGet_dictDel_ne (fun h : g' = g => hgrest (h ▸ hmem))])
            rw [hrest, dictKeys_dictUpdate_mem]
            constructor
            · rintro ((h | h) | h)
              · exact Or.inl h
              · exact Or.inr ⟨g, List.mem_cons_self g rest, hg, other, hother, h⟩
              · obtain ⟨g', hgl, hne, tr, htr, hcam⟩ := h
                exact Or.inr ⟨g', List.mem_cons_of_mem _ hgl, hne, tr, htr, hcam⟩
            · rintro (h | ⟨g', hgl, hne, tr, htr, hcam⟩)
              · exact Or.inl (Or.inl h)
              · rcases List.mem_cons.mp hgl with h' | h'
                · subst h'
                  rw [hother] at htr
                  cases htr
                  exact Or.inl (Or.inr hcam)
                · exact Or.inr ⟨g', h', hne, tr, htr, hcam⟩

/-- Folding the mapping writes of one absorbed track: every listed
membership key ends up mapped to the primary id. -/
theorem dictSetFold_establish (primary : ℕ) (l : List (ℕ × ℕ))
    (m : List ((ℕ × ℕ) × ℕ)) (ct : ℕ × ℕ) (hct : ct ∈ l) :
    dictGet (l.foldl (fun m2 ct' => dictSet m2 (ct'.1, ct'.2) primary) m)
      (ct.1, ct.2) = some primary :=
  foldl_establish (Q := fun _ => True)
    (P := fun m2 : List ((ℕ × ℕ) × ℕ) => dictGet m2 (ct.1, ct.2) = some primary)
    (f := fun m2 ct' => dictSet m2 (ct'.1, ct'.2) primary) l m ct hct
    (fun _ _ _ _ => trivial)
    (fun _ _ _ hp => dictGet_dictSet_preserve hp)
    (fun _ _ => dictGet_dictSet_self)
    trivial

/-- Mapping effect of the `_merge_global_tracks` loop: every membership key
listed by a processed non-primary registry entry is redirected to the
primary id. -/
theorem mergeGidFold_mapping (primary : ℕ) :
    ∀ (A : List ℕ)
      (acc : GlobalTrack × List (ℕ × GlobalTrack) × List ((ℕ × ℕ) × ℕ)),
      A.Nodup →
      ∀ g ∈ A, g ≠ primary → ∀ tr, dictGet acc.2.1 g = some tr →
        ∀ ct ∈ tr.camera_tracks,
          dictGet (A.foldl (mergeGidStep primary) acc).2.2 (ct.1, ct.2) =
            some primary
  | [], _, _ => by intro g hg; simp at hg
  | g0 :: rest, acc, hnd => by
      obtain ⟨hgrest, hndrest⟩ := List.nodup_cons.mp hnd
      intro g hgmem hne tr htr ct hct
      rcases List.mem_cons.mp hgmem with h | h
      · subst h
        rw [List.foldl_cons, mergeGidStep_ne primary acc g tr hne htr]
        exact foldl_preserve
          (P := fun a : GlobalTrack × List (ℕ × GlobalTrack) ×
            List ((ℕ × ℕ) × ℕ) => dictGet a.2.2 (ct.1, ct.2) = some primary)
          (f := mergeGidStep primary) rest _
          (fun a g' _ hp => mergeGidStep_mapping_preserve primary a g' _ hp)
          (dictSetFold_establish primary tr.camera_tracks acc.2.2 ct hct)
      · rw [List.foldl_cons]
        have hreg : dictGet (mergeGidStep primary acc g0).2.1 g = some tr := by
          by_cases hg0 : g0 = primary
          · rw [hg0, mergeGidStep_self]
            exact htr
          · cases hother : dictGet acc.2.1 g0 with
            | none =>
                rw [mergeGidStep_none primary acc g0 hg0 hother]
                exact htr
            | some o =>
                rw [mergeGidStep_ne primary acc g0 o hg0 hother]
                show dictGet (dictDel acc.2.1 g0) g = some tr
                rw [dictGet_dictDel_ne (fun hh : g = g0 => hgrest (hh ▸ h))]
                exact htr
        exact mergeGidFold_mapping primary rest _ hndrest g h hne tr hreg ct hct

instance : IsTotal (ℚ × ℚ × ℚ) posLe := ⟨fun _ _ => le_total _ _⟩

instance : IsTrans (ℚ × ℚ × ℚ) posLe := ⟨fun _ _ _ => le_trans⟩

/-- C4 amended: when a multi-track cluster maps to existing global ids, the
merge resolves to the minimum numeric id; every other merged id is removed
from the registry; the surviving track carries the union of the merged
camera-membership key sets, the timestamp-sorted merge of the position
histories, and a refreshed last-seen stamp; and the reverse-mapping entries
*listed in the absorbed tracks' membership dicts* are redirected to the
surviving id.  (Reverse mappings to an absorbed id that are not listed in
its membership dict — possible when several same-camera tracks shared the
id — are NOT redirected, as `C4_counterexample` shows; this is the only
part of the original claim that fails.) -/
theorem C4_amended (st : MergerState) (gids : List ℕ) (ts : ℚ)
    (primary : ℕ) (st' : MergerState)
    (hnd : gids.Nodup)
    (hkeys : (dictKeys st.global_tracks).Nodup)
    (hrun : mergeGlobalTracksFn st gids ts = some (primary, st')) :
    (primary ∈ gids ∧ ∀ g ∈ gids, primary ≤ g) ∧
    (∀ g ∈ gids, g ≠ primary → dictGet st'.global_tracks g = none) ∧
    (∃ pt ptrk, dictGet st.global_tracks primary = some ptrk ∧
      dictGet st'.global_tracks primary = some pt ∧
      pt.last_seen = ts ∧
      List.Sorted posLe pt.positions ∧
      pt.positions.Perm (ptrk.positions ++
        ((gids.filter (fun g => decide (g ≠ primary))).map
          (fun g => ((dictGet st.global_tracks g).map
            GlobalTrack.positions).getD [])).flatten) ∧
      (∀ cam, cam ∈ dictKeys pt.camera_tracks ↔
        ∃ g ∈ gids, ∃ tr, dictGet st.global_tracks g = some tr ∧
          cam ∈ dictKeys tr.camera_tracks)) ∧
    (∀ g ∈ gids, g ≠ primary → ∀ tr, dictGet st.global_tracks g = some tr →
      ∀ ct ∈ tr.camera_tracks,
        dictGet st'.track_id_mapping (ct.1, ct.2) = some primary) := by
  unfold mergeGlobalTracksFn at hrun
  cases hmin : gids.min? with
  | none =>
      rw [hmin] at hrun
      dsimp only at hrun
      exact absurd hrun (by simp)
  | some p =>
      rw [hmin] at hrun
      dsimp only at hrun
      cases hget : dictGet st.global_tracks p with
      | none =>
          rw [hget] at hrun
          dsimp only at hrun
          exact absurd hrun (by simp)
      | some ptrk =>
          rw [hget] at hrun
          dsimp only at hrun
          rw [Option.some.injEq, Prod.mk.injEq] at hrun
          obtain ⟨hp, hst'⟩ := hrun
          subst hp
          subst hst'
          obtain ⟨hmem, hle⟩ := List.min?_eq_some_iff'.mp hmin
          obtain ⟨rk1, rk2, rk3, rk4⟩ := mergeGidFold_registry p gids
            (ptrk, st.global_tracks, st.track_id_mapping) hnd hkeys
          have hpos := mergeGidFold_positions p gids
            (ptrk, st.global_tracks, st.track_id_mapping) hnd
          have hcam := mergeGidFold_camkeys p gids
            (ptrk, st.global_tracks, st.track_id_mapping) hnd
          have hmapf := mergeGidFold_mapping p gids
            (ptrk, st.global_tracks, st.track_id_mapping) hnd
          refine ⟨⟨hmem, hle⟩, ?_, ?_, ?_⟩
          · intro g hg hne
            show dictGet (dictSet _ p _) g = none
            rw [dictGet_dictSet_ne hne]
            exact rk4 g hg hne
          · refine ⟨_, ptrk, hget, dictGet_dictSet_self, rfl, ?_, ?_, ?_⟩
            · exact List.sorted_insertionSort posLe _
            · refine (List.perm_insertionSort posLe _).trans ?_
              rw [hpos]
            · intro cam
              rw [hcam cam]
              constructor
              · rintro (h | ⟨g, hgl, hne, tr, htr, hc⟩)
                · exact ⟨p, hmem, ptrk, hget, h⟩
                · exact ⟨g, hgl, tr, htr, hc⟩
              · rintro ⟨g, hgl, tr, htr, hc⟩
                by_cases hne : g = p
                · subst hne
                  rw [hget] at htr
                  cases htr
                  exact Or.inl hc
                · exact Or.inr ⟨g, hgl, hne, tr, htr, hc⟩
          · intro g hg hne tr htr ct hct
            exact hmapf g hg hne tr htr ct hct

/-- Witness scenario for `C4_amended`: two live global tracks 1 and 2. -/
def mergeWitnessState : MergerState :=
  { global_tracks :=
      [(1, { global_id := 1, camera_tracks := [(0, 7)], last_seen := 0,
             positions := [(100, 0, 0)] }),
       (2, { global_id := 2, camera_tracks := [(0, 3), (1, 2)], last_seen := 0,
             positions := [(1, 0, 0)] })]
    next_global_id := 3
    track_id_mapping := [((0, 7), 1), ((1, 2), 2), ((0, 3), 2)]
    total_tracks_created := 2
    multi_camera_associations := 0 }

/-- The state after merging global ids {1, 2} of `mergeWitnessState`. -/
def mergedWitnessState : MergerState :=
  (mergeGlobalTracksFn mergeWitnessState [1, 2] 5).elim initialMergerState Prod.snd

/-- Witness for `C4_amended` on the two-track merge of `mergeWitnessState`. -/
theorem C4_amended_witness :
    ([1, 2] : List ℕ).Nodup ∧
    (dictKeys mergeWitnessState.global_tracks).Nodup ∧
    mergeGlobalTracksFn mergeWitnessState [1, 2] 5 =
      some (1, mergedWitnessState) ∧
    (1 ∈ ([1, 2] : List ℕ) ∧ ∀ g ∈ ([1, 2] : List ℕ), 1 ≤ g) ∧
    (∀ g ∈ ([1, 2] : List ℕ), g ≠ 1 →
      dictGet mergedWitnessState.global_tracks g = none) :=
  ⟨by decide, by with_unfolding_all decide, by with_unfolding_all decide,
   (C4_amended mergeWitnessState [1, 2] 5 1 mergedWitnessState (by decide)
     (by with_unfolding_all decide) (by with_unfolding_all decide)).1,
   (C4_amended mergeWitnessState [1, 2] 5 1 mergedWitnessState (by decide)
     (by with_unfolding_all decide) (by with_unfolding_all decide)).2.1⟩

/-! ## C6: depth-first clustering

Helper lemmas on the `visited` list of booleans of `_dfs` (out-of-range
reads default to `true`, i.e. "not a node"). -/

theorem lt_length_of_getD_false {v : List Bool} {i : ℕ}
    (h : v.getD i true = false) : i < v.length := by
  induction v generalizing i with
  | nil => simp at h
  | cons x xs ih =>
      cases i with
      | zero => simp
      | succ j =>
          simp only [List.getD_cons_succ] at h
          simpa using ih h

theorem getD_set_self_of_lt {v : List Bool} {u : ℕ} (h : u < v.length) :
    (v.set u true).getD u true = true := by
  induction v generalizing u with
  | nil => simp at h
  | cons x xs ih =>
      cases u with
      | zero => simp
      | succ j => simpa using ih (by simpa using h)

theorem getD_set_ne {v : List Bool} {u i : ℕ} {b : Bool} (h : i ≠ u) :
    (v.set u true).getD i b = v.getD i b := by
  induction v generalizing u i with
  | nil => simp
  | cons x xs ih =>
      cases u with
      | zero =>
          cases i with
          | zero => exact absurd rfl h
          | succ j => simp
      | succ k =>
          cases i with
          | zero => simp
          | succ j =>
              simp only [List.set_cons_succ, List.getD_cons_succ]
              exact ih (fun hh => h (by rw [hh]))

theorem getD_set_mono {v : List Bool} {u i : ℕ}
    (h : v.getD i true = true) : (v.set u true).getD i true = true := by
  by_cases hi : i = u
  · subst hi
    by_cases hlt : i < v.length
    · exact getD_set_self_of_lt hlt
    · rw [List.set_eq_of_length_le (Nat.le_of_not_lt hlt)]
      exact h
  · rw [getD_set_ne hi]
    exact h

theorem count_false_set {v : List Bool} {u : ℕ}
    (h : v.getD u true = false) :
    (v.set u true).count false + 1 = v.count false := by
  induction v generalizing u with
  | nil => simp at h
  | cons x xs ih =>
      cases u with
      | zero =>
          simp only [List.getD_cons_zero] at h
          subst h
          simp [List.count_cons]
      | succ j =>
          simp only [List.getD_cons_succ] at h
          simp only [List.set_cons_succ, List.count_cons]
          have := ih h
          omega

theorem count_false_pos {v : List Bool} {u : ℕ}
    (h : v.getD u true = false) : 0 < v.count false := by
  induction v generalizing u with
  | nil => simp at h
  | cons x xs ih =>
      cases u with
      | zero =>
          simp only [List.getD_cons_zero] at h
          subst h
          simp [List.count_cons]
      | succ j =>
          simp only [List.getD_cons_succ] at h
          have hpos := ih h
          simp only [List.count_cons]
          exact lt_of_lt_of_le hpos (Nat.le_add_right _ _)

theorem count_false_le_of_mono : ∀ {a b : List Bool},
    a.length = b.length →
    (∀ i, a.getD i true = true → b.getD i true = true) →
    b.count false ≤ a.count false
  | [], [], _, _ => le_refl _
  | [], _ :: _, h, _ => by simp at h
  | _ :: _, [], h, _ => by simp at h
  | x :: xs, y :: ys, h, hmono => by
      have htail : ys.count false ≤ xs.count false :=
        count_false_le_of_mono (by simpa using h)
          (fun i hi => hmono (i + 1) (by simpa using hi))
      have hhead : x = true → y = true := fun hx =>
        hmono 0 (by simpa using hx)
      cases x with
      | true =>
          rw [hhead rfl]
          simpa [List.count_cons] using htail
      | false =>
          simp only [List.count_cons]
          cases y <;> simp <;> omega

/-- Adjacency only holds between indices of actual candidates. -/
theorem adjacent_lt {cfg : CrossCameraConfig} {cands : List TrackCandidate}
    {i j : ℕ} (h : adjacent cfg cands i j = true) :
    i < cands.length ∧ j < cands.length := by
  unfold adjacent at h
  cases hi : cands.get? i with
  | none => rw [hi] at h; simp at h
  | some ci =>
      cases hj : cands.get? j with
      | none => rw [hi, hj] at h; simp at h
      | some cj =>
          exact ⟨List.get?_eq_some.mp hi |>.1, List.get?_eq_some.mp hj |>.1⟩

/-- Full specification of one completed `_dfs` call with sufficient fuel
(`fuel ≥` number of unvisited nodes, as the code's unbounded recursion
enjoys): the visited list only grows, the root gets visited, at least one
node becomes newly visited, the cluster is extended by exactly the newly
visited nodes (each once), and every neighbour of a newly visited node is
visited afterwards. -/
theorem dfsFuel_spec (cfg : CrossCameraConfig) (cands : List TrackCandidate) :
    ∀ (fuel : ℕ) (u : ℕ) (visited : List Bool) (cluster : List ℕ),
      visited.getD u true = false →
      visited.count false ≤ fuel →
      ((dfsFuel cfg cands fuel u (visited, cluster)).1.length = visited.length ∧
       (∀ i, visited.getD i true = true →
         (dfsFuel cfg cands fuel u (visited, cluster)).1.getD i true = true) ∧
       (dfsFuel cfg cands fuel u (visited, cluster)).1.getD u true = true ∧
       (dfsFuel cfg cands fuel u (visited, cluster)).1.count false <
         visited.count false ∧
       (∃ ext, (dfsFuel cfg cands fuel u (visited, cluster)).2 = cluster ++ ext ∧
         ext.Nodup ∧
         (∀ x, x ∈ ext ↔
           ((dfsFuel cfg cands fuel u (visited, cluster)).1.getD x true = true ∧
            visited.getD x true = false))) ∧
       (∀ x, (dfsFuel cfg cands fuel u (visited, cluster)).1.getD x true = true →
         visited.getD x true = false →
         ∀ y, adjacent cfg cands x y = true →
           (dfsFuel cfg cands fuel u (visited, cluster)).1.getD y true = true)) := by
  intro fuel
  induction fuel with
  | zero =>
      intro u visited cluster hu hfuel
      exact absurd (lt_of_lt_of_le (count_false_pos hu) hfuel) (by simp)
  | succ fuel ihfuel =>
      intro u visited cluster hu hfuel
      have hulen : u < visited.length := lt_length_of_getD_false hu
      have hsetu : (visited.set u true).getD u true = true :=
        getD_set_self_of_lt hulen
      have hsetcount : (visited.set u true).count false + 1 =
        visited.count false := count_false_set hu
      have hstep : dfsFuel cfg cands (fuel + 1) u (visited, cluster) =
          (List.range cands.length).foldl
            (fun s v =>
              if adjacent cfg cands u v && !(s.1.getD v true) then
                dfsFuel cfg cands fuel v s
              else s)
            (visited.set u true, cluster ++ [u]) := rfl
      -- the fold preserves the invariants and visits every neighbour of u
      have hfold : ∀ (L : List ℕ) (s : List Bool × List ℕ),
          s.1.length = visited.length →
          (∀ i, (visited.set u true).getD i true = true →
            s.1.getD i true = true) →
          s.1.count false ≤ (visited.set u true).count false →
          (∃ ext, s.2 = (cluster ++ [u]) ++ ext ∧ ext.Nodup ∧
            (∀ x, x ∈ ext ↔ (s.1.getD x true = true ∧
              (visited.set u true).getD x true = false))) →
          (∀ x, s.1.getD x true = true → visited.getD x true = false →
            x ≠ u → ∀ y, adjacent cfg cands x y = true →
              s.1.getD y true = true) →
          ((L.foldl (fun s v =>
              if adjacent cfg cands u v && !(s.1.getD v true) then
                dfsFuel cfg cands fuel v s
              else s) s).1.length = visited.length ∧
           (∀ i, (visited.set u true).getD i true = true →
             (L.foldl (fun s v =>
               if adjacent cfg cands u v && !(s.1.getD v true) then
                 dfsFuel cfg cands fuel v s
               else s) s).1.getD i true = true) ∧
           (∀ i, s.1.getD i true = true →
             (L.foldl (fun s v =>
               if adjacent cfg cands u v && !(s.1.getD v true) then
                 dfsFuel cfg cands fuel v s
               else s) s).1.getD i true = true) ∧
           (L.foldl (fun s v =>
             if adjacent cfg cands u v && !(s.1.getD v true) then
               dfsFuel cfg cands fuel v s
             else s) s).1.count false ≤ (visited.set u true).count false ∧
           (∃ ext, (L.foldl (fun s v =>
               if adjacent cfg cands u v && !(s.1.getD v true) then
                 dfsFuel cfg cands fuel v s
               else s) s).2 = (cluster ++ [u]) ++ ext ∧ ext.Nodup ∧
             (∀ x, x ∈ ext ↔
               ((L.foldl (fun s v =>
                 if adjacent cfg cands u v && !(s.1.getD v true) then
                   dfsFuel cfg cands fuel v s
                 else s) s).1.getD x true = true ∧
                (visited.set u true).getD x true = false))) ∧
           (∀ x, (L.foldl (fun s v =>
               if adjacent cfg cands u v && !(s.1.getD v true) then
                 dfsFuel cfg cands fuel v s
               else s) s).1.getD x true = true →
             visited.getD x true = false → x ≠ u →
             ∀ y, adjacent cfg cands x y = true →
               (L.foldl (fun s v =>
                 if adjacent cfg cands u v && !(s.1.getD v true) then
                   dfsFuel cfg cands fuel v s
                 else s) s).1.getD y true = true) ∧
           (∀ v ∈ L, adjacent cfg cands u v = true →
             (L.foldl (fun s v =>
               if adjacent cfg cands u v && !(s.1.getD v true) then
                 dfsFuel cfg cands fuel v s
               else s) s).1.getD v true = true)) := by
        intro L
        induction L with
        | nil =>
            intro s h1 h2 h3 h4 h5
            exact ⟨h1, h2, fun i h => h, h3, h4, h5, by simp⟩
        | cons v L' ihL =>
            intro s h1 h2 h3 h4 h5
            rw [List.foldl_cons]
            by_cases hcond :
                (adjacent cfg cands u v && !(s.1.getD v true)) = true
            · have hcond2 := hcond
              simp only [Bool.and_eq_true, Bool.not_eq_true'] at hcond2
              obtain ⟨hadj, hvfalse⟩ := hcond2
              rw [if_pos hcond]
              -- the recursive call, by the fuel induction hypothesis
              have hsub := ihfuel v s.1 s.2 hvfalse
                (le_trans h3 (by omega))
              obtain ⟨slen, smono, svtrue, scount, ⟨ext2, hext2, hnd2, hchar2⟩,
                sclo⟩ := hsub
              -- s' = dfsFuel fuel v s, via product eta
              obtain ⟨ext, hext, hnde, hchare⟩ := h4
              have p1 : (dfsFuel cfg cands fuel v s).1.length =
                  visited.length := by rw [slen]; exact h1
              have p2 : ∀ i, (visited.set u true).getD i true = true →
                  (dfsFuel cfg cands fuel v s).1.getD i true = true :=
                fun i h => smono i (h2 i h)
              have p3 : (dfsFuel cfg cands fuel v s).1.count false ≤
                  (visited.set u true).count false :=
                le_trans (le_of_lt scount) h3
              have p4 : ∃ exta, (dfsFuel cfg cands fuel v s).2 =
                  (cluster ++ [u]) ++ exta ∧ exta.Nodup ∧
                  (∀ x, x ∈ exta ↔
                    ((dfsFuel cfg cands fuel v s).1.getD x true = true ∧
                     (visited.set u true).getD x true = false)) := by
                refine ⟨ext ++ ext2, by rw [hext2, hext, List.append_assoc], ?_, ?_⟩
                · refine List.Nodup.append hnde hnd2 ?_
                  intro x hxe hxe2
                  obtain ⟨hx1, _⟩ := (hchare x).mp hxe
                  obtain ⟨_, hx2⟩ := (hchar2 x).mp hxe2
                  rw [hx1] at hx2
                  exact Bool.noConfusion hx2
                · intro x
                  constructor
                  · intro hx
                    rcases List.mem_append.mp hx with hx | hx
                    · obtain ⟨hxv, hxset⟩ := (hchare x).mp hx
                      exact ⟨smono x hxv, hxset⟩
                    · obtain ⟨hxv, hxold⟩ := (hchar2 x).mp hx
                      refine ⟨hxv, ?_⟩
                      cases hset : (visited.set u true).getD x true
                      · rfl
                      · rw [h2 x hset] at hxold; simp at hxold
                  · rintro ⟨hxv, hxset⟩
                    cases hsx : s.1.getD x true
                    · exact List.mem_append.mpr
                        (Or.inr ((hchar2 x).mpr ⟨hxv, hsx⟩))
                    · exact List.mem_append.mpr
                        (Or.inl ((hchare x).mpr ⟨hsx, hxset⟩))
              have p5 : ∀ x, (dfsFuel cfg cands fuel v s).1.getD x true = true →
                  visited.getD x true = false → x ≠ u →
                  ∀ y, adjacent cfg cands x y = true →
                    (dfsFuel cfg cands fuel v s).1.getD y true = true := by
                intro x hx hxold hxu y hy
                cases hsx : s.1.getD x true
                · exact sclo x hx hsx y hy
                · exact smono y (h5 x hsx hxold hxu y hy)
              obtain ⟨q1, q2, q3, q4, q5, q6, q7⟩ :=
                ihL (dfsFuel cfg cands fuel v s) p1 p2 p3 p4 p5
              refine ⟨q1, q2, fun i h => q3 i (smono i h), q4, q5, q6, ?_⟩
              intro v' hv' hadj'
              rcases List.mem_cons.mp hv' with h | h
              · subst h
                exact q3 v' svtrue
              · exact q7 v' h hadj'
            · rw [if_neg hcond]
              obtain ⟨q1, q2, q3, q4, q5, q6, q7⟩ := ihL s h1 h2 h3 h4 h5
              refine ⟨q1, q2, q3, q4, q5, q6, ?_⟩
              intro v' hv' hadj'
              rcases List.mem_cons.mp hv' with h | h
              · subst h
                have hvis : s.1.getD v' true = true := by
                  cases hvv : s.1.getD v' true
                  · exact absurd (by rw [hadj', hvv]; rfl) hcond
                  · rfl
                exact q3 v' hvis
              · exact q7 v' h hadj'
      have hinit4 : ∃ ext, ((visited.set u true, cluster ++ [u]) :
          List Bool × List ℕ).2 = (cluster ++ [u]) ++ ext ∧ ext.Nodup ∧
          (∀ x, x ∈ ext ↔ (((visited.set u true, cluster ++ [u]) :
            List Bool × List ℕ).1.getD x true = true ∧
            (visited.set u true).getD x true = false)) := by
        refine ⟨[], by simp, List.nodup_nil, fun x => ?_⟩
        constructor
        · intro h
          exact absurd h (List.not_mem_nil x)
        · rintro ⟨h1, h2⟩
          rw [h1] at h2
          exact Bool.noConfusion h2
      have hinit5 : ∀ x, ((visited.set u true, cluster ++ [u]) :
          List Bool × List ℕ).1.getD x true = true →
          visited.getD x true = false → x ≠ u →
          ∀ y, adjacent cfg cands x y = true →
            ((visited.set u true, cluster ++ [u]) :
              List Bool × List ℕ).1.getD y true = true := by
        intro x hx hold hxu
        rw [show ((visited.set u true, cluster ++ [u]) :
          List Bool × List ℕ).1 = visited.set u true from rfl,
          getD_set_ne hxu] at hx
        rw [hx] at hold
        exact Bool.noConfusion hold
      obtain ⟨f1, f2, f3, f4, f5, f6, f7⟩ := hfold (List.range cands.length)
        (visited.set u true, cluster ++ [u]) (List.length_set _ _ _)
        (fun _ h => h) (le_refl _) hinit4 hinit5
      rw [hstep]
      refine ⟨f1, ?_, ?_, ?_, ?_, ?_⟩
      · intro i hi
        exact f2 i (getD_set_mono hi)
      · exact f2 u hsetu
      · omega
      · obtain ⟨ext, hext, hnd, hchar⟩ := f5
        refine ⟨u :: ext, ?_, ?_, ?_⟩
        · rw [hext, List.append_assoc, List.singleton_append]
        · refine List.nodup_cons.mpr ⟨?_, hnd⟩
          intro hmem
          obtain ⟨_, hset⟩ := (hchar u).mp hmem
          rw [hsetu] at hset
          exact Bool.noConfusion hset
        · intro x
          constructor
          · intro hx
            rcases List.mem_cons.mp hx with h | h
            · rw [h]
              exact ⟨f2 u hsetu, hu⟩
            · obtain ⟨hxv, hset⟩ := (hchar x).mp h
              refine ⟨hxv, ?_⟩
              by_cases hxu : x = u
              · rw [hxu]
                exact hu
              · rwa [getD_set_ne hxu] at hset
          · rintro ⟨hxv, hold⟩
            by_cases hxu : x = u
            · rw [hxu]
              exact List.mem_cons_self _ _
            · refine List.mem_cons_of_mem _ ((hchar x).mpr ⟨hxv, ?_⟩)
              rwa [getD_set_ne hxu]
      · intro x hx hold y hy
        by_cases hxu : x = u
        · rw [hxu] at hy
          exact f7 y (List.mem_range.mpr (adjacent_lt hy).2) hy
        · exact f6 x hx hold hxu y hy

theorem dot_comm : ∀ (a b : List ℚ), dot a b = dot b a
  | [], b => by cases b <;> simp [dot]
  | _ :: _, [] => by simp [dot]
  | x :: xs, y :: ys => by
      simp only [dot, List.zip_cons_cons, List.map_cons, List.sum_cons]
      rw [mul_comm]
      have := dot_comm xs ys
      simp only [dot] at this
      rw [this]

theorem spatialOk_symm (cfg : CrossCameraConfig) (p q : ℚ × ℚ) :
    spatialOk cfg p q = spatialOk cfg q p := by
  unfold spatialOk
  rw [decide_eq_decide]
  have h : (p.1 - q.1) * (p.1 - q.1) + (p.2 - q.2) * (p.2 - q.2) =
      (q.1 - p.1) * (q.1 - p.1) + (q.2 - p.2) * (q.2 - p.2) := by ring
  rw [h]

theorem appearanceOk_symm (cfg : CrossCameraConfig)
    (fi fj : Option (List ℚ)) :
    appearanceOk cfg fi fj = appearanceOk cfg fj fi := by
  cases fi with
  | none => cases fj <;> rfl
  | some a =>
      cases fj with
      | none => rfl
      | some b =>
          simp only [appearanceOk]
          rw [dot_comm b a, mul_comm (dot b b) (dot a a)]

theorem adjacent_symm (cfg : CrossCameraConfig) (cands : List TrackCandidate)
    (i j : ℕ) : adjacent cfg cands i j = adjacent cfg cands j i := by
  unfold adjacent
  cases hi : cands.get? i with
  | none => cases hj : cands.get? j <;> rfl
  | some ci =>
      cases hj : cands.get? j with
      | none => rfl
      | some cj =>
          dsimp only
          rw [spatialOk_symm cfg ci.position cj.position,
            appearanceOk_symm cfg ci.appearance_features cj.appearance_features,
            decide_eq_decide.mpr (ne_comm (a := ci.camera_id))]

theorem getD_replicate_false {n x : ℕ} (h : x < n) :
    (List.replicate n false).getD x true = false := by
  induction n generalizing x with
  | zero => omega
  | succ m ih =>
      cases x with
      | zero => simp [List.replicate]
      | succ y => simpa [List.replicate] using ih (by omega)

/-- In a duplicate-free flattening, an element pins down the position of
the sublist containing it. -/
theorem flatten_nodup_pos_unique {L : List (List ℕ)}
    (h : L.flatten.Nodup) :
    ∀ (m k : ℕ) (Cm Ck : List ℕ) (x : ℕ),
      L.get? m = some Cm → L.get? k = some Ck → x ∈ Cm → x ∈ Ck → m = k := by
  induction L with
  | nil => intro m k Cm Ck x hm; simp at hm
  | cons E T ih =>
      intro m k Cm Ck x hm hk hxm hxk
      rw [List.flatten_cons] at h
      have hdisj := List.disjoint_of_nodup_append h
      cases m with
      | zero =>
          cases k with
          | zero => rfl
          | succ k' =>
              rw [List.get?_cons_zero, Option.some.injEq] at hm
              rw [List.get?_cons_succ] at hk
              refine absurd (List.mem_flatten.mpr
                ⟨Ck, List.get?_mem hk, hxk⟩) (hdisj ?_)
              rw [hm]
              exact hxm
      | succ m' =>
          cases k with
          | zero =>
              rw [List.get?_cons_zero, Option.some.injEq] at hk
              rw [List.get?_cons_succ] at hm
              refine absurd (List.mem_flatten.mpr
                ⟨Cm, List.get?_mem hm, hxm⟩) (hdisj ?_)
              rw [hk]
              exact hxk
          | succ k' =>
              rw [List.get?_cons_succ] at hm hk
              have := ih h.of_append_right m' k' Cm Ck x hm hk hxm hxk
              omega

/-- One iteration of the outer component loop of `_cluster_tracks`
(named form of the fold body of `clusterIndices`). -/
def clusterStep (cfg : CrossCameraConfig) (cands : List TrackCandidate)
    (acc : List Bool × List (List ℕ)) (i : ℕ) : List Bool × List (List ℕ) :=
  if acc.1.getD i true then acc
  else
    ((dfsFuel cfg cands cands.length i (acc.1, [])).1,
     acc.2 ++ [(dfsFuel cfg cands cands.length i (acc.1, [])).2])

theorem clusterIndices_eq (cfg : CrossCameraConfig)
    (cands : List TrackCandidate) :
    clusterIndices cfg cands =
      ((List.range cands.length).foldl (clusterStep cfg cands)
        (List.replicate cands.length false, [])).2 := rfl

/-- Invariants of the outer component loop: the visited set is closed under
adjacency, the flattened clusters are exactly the visited node indices with
no duplicate, every emitted cluster is closed under adjacency, and every
processed index ends up visited. -/
theorem clusterFold_spec (cfg : CrossCameraConfig)
    (cands : List TrackCandidate) :
    ∀ (L : List ℕ) (acc : List Bool × List (List ℕ)),
      acc.1.length = cands.length →
      (∀ x y, acc.1.getD x true = true → adjacent cfg cands x y = true →
        acc.1.getD y true = true) →
      (∀ x, x ∈ acc.2.flatten ↔
        (acc.1.getD x true = true ∧ x < cands.length)) →
      acc.2.flatten.Nodup →
      (∀ C ∈ acc.2, ∀ x ∈ C, ∀ y, adjacent cfg cands x y = true → y ∈ C) →
      ((L.foldl (clusterStep cfg cands) acc).1.length = cands.length ∧
       (∀ x y, (L.foldl (clusterStep cfg cands) acc).1.getD x true = true →
         adjacent cfg cands x y = true →
         (L.foldl (clusterStep cfg cands) acc).1.getD y true = true) ∧
       (∀ x, x ∈ (L.foldl (clusterStep cfg cands) acc).2.flatten ↔
         ((L.foldl (clusterStep cfg cands) acc).1.getD x true = true ∧
          x < cands.length)) ∧
       (L.foldl (clusterStep cfg cands) acc).2.flatten.Nodup ∧
       (∀ C ∈ (L.foldl (clusterStep cfg cands) acc).2, ∀ x ∈ C, ∀ y,
         adjacent cfg cands x y = true → y ∈ C) ∧
       (∀ x, acc.1.getD x true = true →
         (L.foldl (clusterStep cfg cands) acc).1.getD x true = true) ∧
       (∀ i ∈ L, (L.foldl (clusterStep cfg cands) acc).1.getD i true = true))
  | [], acc, h1, h2, h3, h4, h5 =>
      ⟨h1, h2, h3, h4, h5, fun _ h => h, by simp⟩
  | i :: L', acc, h1, h2, h3, h4, h5 => by
      rw [List.foldl_cons]
      cases hvis : acc.1.getD i true with
      | true =>
          have hstep : clusterStep cfg cands acc i = acc := by
            unfold clusterStep
            rw [hvis]
            simp
          rw [hstep]
          obtain ⟨c1, c2, c3, c4, c5, c6, c7⟩ :=
            clusterFold_spec cfg cands L' acc h1 h2 h3 h4 h5
          refine ⟨c1, c2, c3, c4, c5, c6, ?_⟩
          intro i' hi'
          rcases List.mem_cons.mp hi' with h | h
          · rw [h]
            exact c6 i hvis
          · exact c7 i' h
      | false =>
          have hstep : clusterStep cfg cands acc i =
              ((dfsFuel cfg cands cands.length i (acc.1, [])).1,
               acc.2 ++ [(dfsFuel cfg cands cands.length i (acc.1, [])).2]) := by
            unfold clusterStep
            rw [hvis]
            simp
          rw [hstep]
          obtain ⟨slen, smono, sitrue, _, ⟨ext, hext, hnde, hchar⟩, sclo⟩ :=
            dfsFuel_spec cfg cands cands.length i acc.1 [] hvis
              (le_of_le_of_eq (List.count_le_length false acc.1) h1)
          rw [List.nil_append] at hext
          have hnewlen :
              (dfsFuel cfg cands cands.length i (acc.1, [])).1.length =
                cands.length := by rw [slen]; exact h1
          have hnewclo : ∀ x y,
              (dfsFuel cfg cands cands.length i (acc.1, [])).1.getD x true = true →
              adjacent cfg cands x y = true →
              (dfsFuel cfg cands cands.length i (acc.1, [])).1.getD y true = true := by
            intro x y hx hadj
            cases hax : acc.1.getD x true with
            | true => exact smono y (h2 x y hax hadj)
            | false => exact sclo x hx hax y hadj
          have hflat : ∀ x,
              x ∈ (acc.2 ++ [(dfsFuel cfg cands cands.length i (acc.1, [])).2]).flatten ↔
              ((dfsFuel cfg cands cands.length i (acc.1, [])).1.getD x true = true ∧
               x < cands.length) := by
            intro x
            rw [List.flatten_append]
            simp only [List.flatten_cons, List.flatten_nil, List.append_nil,
              List.mem_append]
            constructor
            · rintro (hx | hx)
              · obtain ⟨hv, hlt⟩ := (h3 x).mp hx
                exact ⟨smono x hv, hlt⟩
              · rw [hext] at hx
                obtain ⟨hv, hold⟩ := (hchar x).mp hx
                exact ⟨hv, lt_of_lt_of_eq (lt_length_of_getD_false hold) h1⟩
            · rintro ⟨hv, hlt⟩
              cases hax : acc.1.getD x true with
              | true => exact Or.inl ((h3 x).mpr ⟨hax, hlt⟩)
              | false =>
                  refine Or.inr ?_
                  rw [hext]
                  exact (hchar x).mpr ⟨hv, hax⟩
          have hnd : (acc.2 ++ [(dfsFuel cfg cands cands.length i (acc.1, [])).2]).flatten.Nodup := by
            rw [List.flatten_append]
            simp only [List.flatten_cons, List.flatten_nil, List.append_nil]
            refine List.Nodup.append h4 (hext ▸ hnde) ?_
            intro x hx1 hx2
            obtain ⟨hv, _⟩ := (h3 x).mp hx1
            rw [hext] at hx2
            obtain ⟨_, hold⟩ := (hchar x).mp hx2
            rw [hv] at hold
            exact Bool.noConfusion hold
          have hcc : ∀ C ∈ acc.2 ++ [(dfsFuel cfg cands cands.length i (acc.1, [])).2],
              ∀ x ∈ C, ∀ y, adjacent cfg cands x y = true → y ∈ C := by
            intro C hC x hx y hadj
            rcases List.mem_append.mp hC with hC | hC
            · exact h5 C hC x hx y hadj
            · rw [List.mem_singleton.mp hC] at hx ⊢
              rw [hext] at hx ⊢
              obtain ⟨hv, hold⟩ := (hchar x).mp hx
              refine (hchar y).mpr ⟨sclo x hv hold y hadj, ?_⟩
              cases hay : acc.1.getD y true with
              | true =>
                  have := h2 y x hay (by rw [← adjacent_symm]; exact hadj)
                  rw [this] at hold
                  exact Bool.noConfusion hold
              | false => rfl
          obtain ⟨c1, c2, c3, c4, c5, c6, c7⟩ := clusterFold_spec cfg cands L'
            ((dfsFuel cfg cands cands.length i (acc.1, [])).1,
             acc.2 ++ [(dfsFuel cfg cands cands.length i (acc.1, [])).2])
            hnewlen hnewclo hflat hnd hcc
          refine ⟨c1, c2, c3, c4, c5, fun x hx => c6 x (smono x hx), ?_⟩
          intro i' hi'
          rcases List.mem_cons.mp hi' with h | h
          · rw [h]
            exact c6 i sitrue
          · exact c7 i' h

/-- Summary facts about the connected components computed by
`_cluster_tracks`: every index lands in some cluster, the clusters are
duplicate-free as a whole, and each cluster is closed under adjacency. -/
theorem clusterIndices_spec (cfg : CrossCameraConfig)
    (cands : List TrackCandidate) :
    (∀ C ∈ clusterIndices cfg cands, ∀ x ∈ C, x < cands.length) ∧
    (∀ i, i < cands.length → ∃ C, C ∈ clusterIndices cfg cands ∧ i ∈ C) ∧
    (clusterIndices cfg cands).flatten.Nodup ∧
    (∀ C ∈ clusterIndices cfg cands, ∀ x ∈ C, ∀ y,
      adjacent cfg cands x y = true → y ∈ C) := by
  obtain ⟨c1, c2, c3, c4, c5, c6, c7⟩ := clusterFold_spec cfg cands
    (List.range cands.length) (List.replicate cands.length false, [])
    (by simp)
    (by dsimp only
        intro x y hx hadj
        rw [getD_replicate_false (adjacent_lt hadj).1] at hx
        exact Bool.noConfusion hx)
    (by dsimp only
        intro x
        constructor
        · intro h
          exact absurd h (by simp)
        · rintro ⟨hv, hlt⟩
          rw [getD_replicate_false hlt] at hv
          exact Bool.noConfusion hv)
    (by simp)
    (by dsimp only
        intro C hC
        exact absurd hC (List.not_mem_nil C))
  rw [clusterIndices_eq]
  refine ⟨?_, ?_, c4, c5⟩
  · intro C hC x hx
    exact ((c3 x).mp (List.mem_flatten.mpr ⟨C, hC, hx⟩)).2
  · intro i hi
    obtain ⟨C, hC, hiC⟩ := List.mem_flatten.mp
      ((c3 i).mpr ⟨c7 i (List.mem_range.mpr hi), hi⟩)
    exact ⟨C, hC, hiC⟩

/-! ## C6: global-id assignment output -/

/-- The tracks emitted for one cluster that resolved to global id `g`. -/
def clusterChunk (C : List TrackCandidate) (g : ℕ) : List BEVTrack :=
  C.map (fun c => { c.original_bev_track with global_id := some g })

theorem assignMultiFold_out (primary : ℕ) :
    ∀ (C : List TrackCandidate) (outs : List BEVTrack) (st : MergerState),
      (C.foldl (fun acc2 c =>
        (acc2.1 ++ [{ c.original_bev_track with global_id := some primary }],
         { acc2.2 with track_id_mapping :=
            (dictSet acc2.2.track_id_mapping
              (c.camera_id, c.local_track_id) primary) })) (outs, st)).1 =
      outs ++ clusterChunk C primary
  | [], outs, st => by simp [clusterChunk]
  | c :: rest, outs, st => by
      rw [List.foldl_cons, assignMultiFold_out primary rest _ _]
      simp [clusterChunk]

/-- Each processed cluster contributes exactly its own chunk of output
tracks, all tagged with one global id. -/
theorem assignCluster_out (ts : ℚ) (acc : List BEVTrack × MergerState)
    (C : List TrackCandidate) (r : List BEVTrack × MergerState)
    (h : assignCluster acc C ts = some r) :
    ∃ g, r.1 = acc.1 ++ clusterChunk C g := by
  match C with
  | [] =>
      have hnil : assignCluster acc [] ts =
          some (acc.1, (createNewGlobalTrackForCluster acc.2 [] ts).2) := rfl
      rw [hnil, Option.some.injEq] at h
      exact ⟨0, by rw [← h]; simp [clusterChunk]⟩
  | [c] =>
      unfold assignCluster at h
      dsimp only at h
      cases hmap : dictGet acc.2.track_id_mapping (c.camera_id, c.local_track_id) with
      | some gid =>
          rw [hmap] at h
          dsimp only at h
          rw [Option.some.injEq] at h
          exact ⟨gid, by rw [← h]; simp [clusterChunk]⟩
      | none =>
          rw [hmap] at h
          dsimp only at h
          rw [Option.some.injEq] at h
          exact ⟨(createNewGlobalTrackForCluster acc.2 [c] ts).1,
            by rw [← h]; simp [clusterChunk]⟩
  | c1 :: c2 :: cs =>
      unfold assignCluster at h
      dsimp only at h
      cases hex : (existingGlobalIds acc.2 (c1 :: c2 :: cs)).isEmpty with
      | true =>
          rw [hex] at h
          rw [if_pos rfl] at h
          dsimp only at h
          rw [Option.some.injEq] at h
          refine ⟨(createNewGlobalTrackForCluster acc.2 (c1 :: c2 :: cs) ts).1, ?_⟩
          rw [← h]
          rw [assignMultiFold_out]
      | false =>
          rw [hex] at h
          simp only [Bool.false_eq_true, if_false] at h
          cases hm : mergeGlobalTracksFn acc.2
              (existingGlobalIds acc.2 (c1 :: c2 :: cs)) ts with
          | none =>
              rw [hm] at h
              simp at h
          | some pr =>
              rw [hm] at h
              simp only [Option.map_some'] at h
              rw [Option.some.injEq] at h
              refine ⟨pr.1, ?_⟩
              rw [← h]
              rw [assignMultiFold_out]

theorem assignFold_none (ts : ℚ) : ∀ (clusters : List (List TrackCandidate)),
    clusters.foldl (fun acc cluster =>
      match acc with
      | none => none
      | some a => assignCluster a cluster ts) none = none
  | [] => rfl
  | _ :: rest => assignFold_none ts rest

/-- The output of `_assign_global_ids_to_clusters` is the concatenation of
one chunk per cluster, each chunk tagged with a single global id. -/
theorem assignFold_spec (ts : ℚ) :
    ∀ (clusters : List (List TrackCandidate)) (outs : List BEVTrack)
      (st : MergerState) (out : List BEVTrack) (st' : MergerState),
      clusters.foldl (fun acc cluster =>
        match acc with
        | none => none
        | some a => assignCluster a cluster ts) (some (outs, st)) =
          some (out, st') →
      ∃ gs : List ℕ, gs.length = clusters.length ∧
        out = outs ++ (List.zipWith clusterChunk clusters gs).flatten
  | [], outs, st, out, st', h => by
      rw [List.foldl_nil, Option.some.injEq, Prod.mk.injEq] at h
      exact ⟨[], rfl, by rw [← h.1]; simp⟩
  | C :: rest, outs, st, out, st', h => by
      rw [List.foldl_cons] at h
      dsimp only at h
      cases hstep : assignCluster (outs, st) C ts with
      | none =>
          rw [hstep] at h
          rw [assignFold_none ts rest] at h
          exact absurd h (by simp)
      | some r =>
          rw [hstep] at h
          obtain ⟨g, hg⟩ := assignCluster_out ts (outs, st) C r hstep
          obtain ⟨gs, hlen, hout⟩ := assignFold_spec ts rest r.1 r.2 out st' h
          refine ⟨g :: gs, by simp [hlen], ?_⟩
          rw [hout, hg]
          simp [List.append_assoc]

/-- Membership in the flattening of per-position chunks. -/
theorem mem_flatten_zipWith {α β γ : Type} (f : α → β → List γ) :
    ∀ (L1 : List α) (L2 : List β) (a : γ),
      (a ∈ (List.zipWith f L1 L2).flatten ↔
       ∃ (m : ℕ) (C : α) (g : β), L1.get? m = some C ∧ L2.get? m = some g ∧
         a ∈ f C g)
  | [], L2, a => by simp
  | _ :: _, [], a => by
      simp only [List.zipWith_nil_right, List.flatten_nil,
        List.not_mem_nil, false_iff]
      rintro ⟨m, C, g, _, hg, _⟩
      simp at hg
  | x :: xs, y :: ys, a => by
      simp only [List.zipWith_cons_cons, List.flatten_cons, List.mem_append]
      constructor
      · rintro (h | h)
        · exact ⟨0, x, y, rfl, rfl, h⟩
        · obtain ⟨m, C, g, hC, hg, hm⟩ := (mem_flatten_zipWith f xs ys a).mp h
          exact ⟨m + 1, C, g, by simpa using hC, by simpa using hg, hm⟩
      · rintro ⟨m, C, g, hC, hg, hm⟩
        cases m with
        | zero =>
            rw [List.get?_cons_zero, Option.some.injEq] at hC hg
            rw [← hC, ← hg] at hm
            exact Or.inl hm
        | succ m' =>
            rw [List.get?_cons_succ] at hC hg
            exact Or.inr ((mem_flatten_zipWith f xs ys a).mpr
              ⟨m', C, g, hC, hg, hm⟩)

/-- In a duplicate-free list, a value pins down its position. -/
theorem nodup_get?_inj {α : Type} {l : List α} (h : l.Nodup) {n m : ℕ}
    {a : α} (hn : l.get? n = some a) (hm : l.get? m = some a) : n = m := by
  induction l generalizing n m with
  | nil => simp at hn
  | cons x t ih =>
      obtain ⟨hx, ht⟩ := List.nodup_cons.mp h
      cases n with
      | zero =>
          rw [List.get?_cons_zero, Option.some.injEq] at hn
          cases m with
          | zero => rfl
          | succ m' =>
              rw [List.get?_cons_succ] at hm
              exact absurd (hn ▸ List.get?_mem hm) hx
      | succ n' =>
          rw [List.get?_cons_succ] at hn
          cases m with
          | zero =>
              rw [List.get?_cons_zero, Option.some.injEq] at hm
              exact absurd (hm ▸ List.get?_mem hn) hx
          | succ m' =>
              rw [List.get?_cons_succ] at hm
              have := ih ht hn hm
              omega

/-- C6 (amended): in a fusion cycle that completes, two tracks of one
batch that come from different cameras, lie within the spatial threshold,
and pass (or skip, for missing features) the appearance check receive the
same global id in that cycle.  The hypotheses are exactly the edge
conditions of `_cluster_tracks`; `hkeys` states that the batch has no
duplicate (camera id, local id) pair, which identifies each output track.
Completion is not guaranteed: `C6_counterexample` reaches a state whose
stale reverse mapping resolves the pair's cluster to a minimum id absent
from the registry, so `merge` raises a `KeyError` (modelled by
`mergeStep = none`) and the qualifying pair is assigned no global id in
that cycle. -/
theorem C6_amended (cfg : CrossCameraConfig) (st : MergerState)
    (tracks : List BEVTrack) (ts : ℚ) (reid : List (ℕ × List ℚ))
    (i j : ℕ) (ti tj : BEVTrack)
    (hkeys : (tracks.map (fun t => (t.camera_id, t.track_id))).Nodup)
    (hti : tracks.get? i = some ti) (htj : tracks.get? j = some tj)
    (hcam : ti.camera_id ≠ tj.camera_id)
    (hspat : spatialOk cfg (ti.bev_x, ti.bev_y) (tj.bev_x, tj.bev_y) = true)
    (happ : appearanceOk cfg (dictGet reid ti.track_id)
      (dictGet reid tj.track_id) = true)
    (out : List BEVTrack) (st' : MergerState)
    (hrun : mergeStep cfg st tracks ts reid = some (out, st')) :
    ∃ g : ℕ,
      (∃ a ∈ out, a.camera_id = ti.camera_id ∧ a.track_id = ti.track_id ∧
        a.global_id = some g) ∧
      (∃ b ∈ out, b.camera_id = tj.camera_id ∧ b.track_id = tj.track_id ∧
        b.global_id = some g) ∧
      (∀ a ∈ out, a.camera_id = ti.camera_id → a.track_id = ti.track_id →
        a.global_id = some g) ∧
      (∀ b ∈ out, b.camera_id = tj.camera_id → b.track_id = tj.track_id →
        b.global_id = some g) := by
  have hcandi : (buildCandidates tracks reid).get? i =
      some { camera_id := ti.camera_id, local_track_id := ti.track_id,
             position := (ti.bev_x, ti.bev_y),
             appearance_features := dictGet reid ti.track_id,
             original_bev_track := ti } := by
    unfold buildCandidates
    rw [List.get?_map, hti]
    rfl
  have hcandj : (buildCandidates tracks reid).get? j =
      some { camera_id := tj.camera_id, local_track_id := tj.track_id,
             position := (tj.bev_x, tj.bev_y),
             appearance_features := dictGet reid tj.track_id,
             original_bev_track := tj } := by
    unfold buildCandidates
    rw [List.get?_map, htj]
    rfl
  have hadj : adjacent cfg (buildCandidates tracks reid) i j = true := by
    unfold adjacent
    rw [hcandi, hcandj]
    dsimp only
    simp only [Bool.and_eq_true, decide_eq_true_eq]
    exact ⟨⟨hcam, hspat⟩, happ⟩
  obtain ⟨cLT, cCOV, cND, cCLO⟩ :=
    clusterIndices_spec cfg (buildCandidates tracks reid)
  obtain ⟨C, hC, hiC⟩ := cCOV i (adjacent_lt hadj).1
  have hjC : j ∈ C := cCLO C hC i hiC j hadj
  obtain ⟨m, hm⟩ := List.mem_iff_get?.mp hC
  have hrun2 : (clusterTracks cfg (buildCandidates tracks reid)).foldl
      (fun acc cluster =>
        match acc with
        | none => none
        | some a => assignCluster a cluster ts)
      (some ([], cleanupOldTracks cfg st ts)) = some (out, st') := hrun
  obtain ⟨gs, hlen, hout⟩ := assignFold_spec ts
    (clusterTracks cfg (buildCandidates tracks reid))
    [] (cleanupOldTracks cfg st ts) out st' hrun2
  rw [List.nil_append] at hout
  have hmlt : m < (clusterIndices cfg (buildCandidates tracks reid)).length :=
    (List.get?_eq_some.mp hm).1
  have hmgs : m < gs.length := by
    rw [hlen]
    unfold clusterTracks
    rw [List.length_map]
    exact hmlt
  have hg : gs.get? m = some (gs.get ⟨m, hmgs⟩) := List.get?_eq_get hmgs
  have hclm : (clusterTracks cfg (buildCandidates tracks reid)).get? m =
      some (C.filterMap (fun x => (buildCandidates tracks reid).get? x)) := by
    unfold clusterTracks
    rw [List.get?_map, hm]
    rfl
  -- any output track carrying the key of a batch member whose index lies
  -- in cluster C carries the global id resolved at C's position
  have huniq : ∀ (i0 : ℕ) (t0 : BEVTrack), tracks.get? i0 = some t0 →
      i0 ∈ C → ∀ a ∈ out, a.camera_id = t0.camera_id →
      a.track_id = t0.track_id → a.global_id = some (gs.get ⟨m, hmgs⟩) := by
    intro i0 t0 ht0 hi0C a ha hacam hatid
    rw [hout] at ha
    obtain ⟨m', C', g', hC', hg', hmem⟩ :=
      (mem_flatten_zipWith clusterChunk _ gs a).mp ha
    have hD : ∃ D, (clusterIndices cfg (buildCandidates tracks reid)).get? m' =
        some D ∧
        C' = D.filterMap (fun x => (buildCandidates tracks reid).get? x) := by
      unfold clusterTracks at hC'
      rw [List.get?_map] at hC'
      cases hDm : (clusterIndices cfg (buildCandidates tracks reid)).get? m' with
      | none => rw [hDm] at hC'; simp at hC'
      | some D =>
          rw [hDm] at hC'
          exact ⟨D, rfl, (Option.some.inj hC').symm⟩
    obtain ⟨D, hDm, hC'eq⟩ := hD
    obtain ⟨c, hcC', haeq⟩ := List.mem_map.mp hmem
    rw [hC'eq] at hcC'
    obtain ⟨x, hxD, hxc⟩ := List.mem_filterMap.mp hcC'
    have htx : ∃ tx, tracks.get? x = some tx ∧
        c = { camera_id := tx.camera_id, local_track_id := tx.track_id,
              position := (tx.bev_x, tx.bev_y),
              appearance_features := dictGet reid tx.track_id,
              original_bev_track := tx } := by
      unfold buildCandidates at hxc
      rw [List.get?_map] at hxc
      cases htx0 : tracks.get? x with
      | none => rw [htx0] at hxc; simp at hxc
      | some tx =>
          rw [htx0] at hxc
          exact ⟨tx, rfl, (Option.some.inj hxc).symm⟩
    obtain ⟨tx, htx, hceq⟩ := htx
    rw [← haeq] at hacam hatid
    rw [hceq] at hacam hatid
    have hxi0 : x = i0 := by
      refine nodup_get?_inj hkeys (a := (t0.camera_id, t0.track_id)) ?_ ?_
      · rw [List.get?_map, htx, Option.map_some', Option.some.injEq,
          Prod.mk.injEq]
        exact ⟨hacam, hatid⟩
      · rw [List.get?_map, ht0]
        rfl
    have hm'm : m' = m :=
      flatten_nodup_pos_unique cND m' m D C i0 hDm hm (hxi0 ▸ hxD) hi0C
    rw [← haeq]
    rw [hceq]
    show some g' = some (gs.get ⟨m, hmgs⟩)
    rw [hm'm] at hg'
    rw [hg] at hg'
    exact hg'.symm
  refine ⟨gs.get ⟨m, hmgs⟩, ?_, ?_, huniq i ti hti hiC, huniq j tj htj hjC⟩
  · refine ⟨{ ti with global_id := some (gs.get ⟨m, hmgs⟩) }, ?_, rfl, rfl, rfl⟩
    rw [hout]
    refine (mem_flatten_zipWith clusterChunk _ gs _).mpr
      ⟨m, _, gs.get ⟨m, hmgs⟩, hclm, hg, ?_⟩
    exact List.mem_map.mpr
      ⟨_, List.mem_filterMap.mpr ⟨i, hiC, hcandi⟩, rfl⟩
  · refine ⟨{ tj with global_id := some (gs.get ⟨m, hmgs⟩) }, ?_, rfl, rfl, rfl⟩
    rw [hout]
    refine (mem_flatten_zipWith clusterChunk _ gs _).mpr
      ⟨m, _, gs.get ⟨m, hmgs⟩, hclm, hg, ?_⟩
    exact List.mem_map.mpr
      ⟨_, List.mem_filterMap.mpr ⟨j, hjC, hcandj⟩, rfl⟩

/-- The fusion cycle of the two-track cross-camera scenario. -/
def pairCycle : Option (List BEVTrack × MergerState) :=
  mergeStep chainCfg initialMergerState [trkA, trkB] 0 []

def pairOut : List BEVTrack := (pairCycle.map Prod.fst).getD []

def pairSt : MergerState := (pairCycle.map Prod.snd).getD initialMergerState

/-- Witness for `C6_amended` on the two-track cross-camera scenario. -/
theorem C6_amended_witness :
    (([trkA, trkB] : List BEVTrack).map
      (fun t => (t.camera_id, t.track_id))).Nodup ∧
    trkA.camera_id ≠ trkB.camera_id ∧
    spatialOk chainCfg (trkA.bev_x, trkA.bev_y) (trkB.bev_x, trkB.bev_y) = true ∧
    appearanceOk chainCfg (dictGet [] trkA.track_id)
      (dictGet [] trkB.track_id) = true ∧
    mergeStep chainCfg initialMergerState [trkA, trkB] 0 [] =
      some (pairOut, pairSt) ∧
    (∃ g : ℕ,
      (∃ a ∈ pairOut, a.camera_id = trkA.camera_id ∧
        a.track_id = trkA.track_id ∧ a.global_id = some g) ∧
      (∃ b ∈ pairOut, b.camera_id = trkB.camera_id ∧
        b.track_id = trkB.track_id ∧ b.global_id = some g) ∧
      (∀ a ∈ pairOut, a.camera_id = trkA.camera_id →
        a.track_id = trkA.track_id → a.global_id = some g) ∧
      (∀ b ∈ pairOut, b.camera_id = trkB.camera_id →
        b.track_id = trkB.track_id → b.global_id = some g)) :=
  ⟨by with_unfolding_all decide, by with_unfolding_all decide,
   by with_unfolding_all decide, by with_unfolding_all decide,
   by with_unfolding_all decide,
   C6_amended chainCfg initialMergerState [trkA, trkB] 0 [] 0 1 trkA trkB
     (by with_unfolding_all decide) (by with_unfolding_all decide)
     (by with_unfolding_all decide) (by with_unfolding_all decide)
     (by with_unfolding_all decide) (by with_unfolding_all decide)
     pairOut pairSt (by with_unfolding_all decide)⟩

/-- A second camera-1 track at the chain position, used by the cycle that
exhibits the stale-mapping `KeyError`. -/
def trkF : BEVTrack := { track_id := 5, bev_x := 1, bev_y := 0, camera_id := 1 }

/-- C6 is false on the code as frozen: after the chain-and-expiry scenario
(`chainCycle2` leaves the registry empty with the stale reverse mapping
`(0,1) ↦ 1`), a third cycle's batch holds a pair meeting every edge
condition — different cameras, distance within `spatial_threshold`,
appearance check skipped for missing features — yet the cycle resolves the
cluster's existing ids to the minimum 1, absent from the registry, so
`merge` raises a `KeyError` (`mergeStep = none`) and the pair is assigned
no global id at all in that cycle. -/
theorem C6_counterexample :
    trkA.camera_id ≠ trkF.camera_id ∧
    spatialOk chainCfg (trkA.bev_x, trkA.bev_y) (trkF.bev_x, trkF.bev_y) =
      true ∧
    appearanceOk chainCfg (dictGet [] trkA.track_id)
      (dictGet [] trkF.track_id) = true ∧
    chainCycle2.map (fun p => mergeStep chainCfg p.2 [trkA, trkF] 101 []) =
      some none := by
  refine ⟨by decide, ?_, ?_, ?_⟩ <;> with_unfolding_all decide

/-! ## Stream combiner: data model (`core/stream_combiner.py`)

Pixel buffers are abstracted as natural-number tags (`recv` resizes every
real frame to the canonical 720×480 tile before use, so tile geometry is
uniform and only the canvas dimensions matter).  The cycle's external
inputs are the clock value `now` and the per-stream read outcome
(`cap.read()` succeeded with a frame, or failed). -/

/-- `stream_combiner.py` class `StreamFrame`. -/
structure StreamFrame where
  frame : ℕ
  timestamp : ℚ
  stream_id : ℕ
deriving DecidableEq, Repr

/-- The values stored in `self.stream_status`. -/
inductive StreamStatus
  | initializing
  | ready
  | error
  | timeout
  | reconnecting
deriving DecidableEq, Repr

/-- The label text `_create_status_frame` renders for a status. -/
def statusLabel : StreamStatus → String
  | .initializing => "initializing"
  | .ready => "ready"
  | .error => "error"
  | .timeout => "timeout"
  | .reconnecting => "reconnecting"

/-- One stream's output tile of a cycle: a real (normalized) frame or a
generated status placeholder. -/
inductive Tile
  | frameTile (f : ℕ)
  | statusTile (stream_id : ℕ) (label : String)
deriving DecidableEq, Repr

/-- Mutable attributes of `StreamCombinerTrack` that the modelled
operations read or write.  `stream_caps` maps a stream id to its capture's
`isOpened()` state; statistics counters, FPS bookkeeping and the vision
fields do not influence any modelled behaviour and are omitted. -/
structure CombinerState where
  stream_caps : List (ℕ × Bool)
  active_stream_ids : List ℕ
  stream_delays : List (ℕ × ℤ)
  frame_buffers : List (ℕ × List StreamFrame)
  last_frames : List (ℕ × Option ℕ)
  stream_status : List (ℕ × StreamStatus)
  stream_init_timeout : List (ℕ × ℚ)
deriving DecidableEq, Repr

/-- The per-cycle buffer eviction loops
(`while buffers and now - buffers[0].timestamp > window: popleft()`). -/
def purgeOlder (now window : ℚ) (buf : List StreamFrame) : List StreamFrame :=
  buf.dropWhile (fun fr => decide (now - fr.timestamp > window))

/-- The capture loop of `recv` (one `cap.read()` attempt per capture, in
capture-dict order): a success stores the fresh frame, refreshes the
last-known-good cache and flips `initializing → ready`; a failure flips
`initializing → timeout` past the init deadline, else `ready → error`
(scheduling a background reconnect, modelled separately by
`reconnectBegin`/`reconnectFinish`). -/
def capStep (now : ℚ) (reads : ℕ → Option ℕ)
    (acc : CombinerState × List (ℕ × ℕ)) (cap : ℕ × Bool) :
    CombinerState × List (ℕ × ℕ) :=
  let stream_id := cap.1
  match reads stream_id with
      | some f =>
          let st1 := { acc.1 with
            last_frames := dictSet acc.1.last_frames stream_id (some f) }
          let st2 :=
            if (dictGet st1.stream_status stream_id).getD .initializing =
                .initializing then
              { st1 with stream_status :=
                  (dictSet st1.stream_status stream_id .ready) }
            else st1
          (st2, acc.2 ++ [(stream_id, f)])
      | none =>
          let status := (dictGet acc.1.stream_status stream_id).getD .initializing
          if now > (dictGet acc.1.stream_init_timeout stream_id).getD 0 ∧
              status = .initializing then
            ({ acc.1 with stream_status :=
                  (dictSet acc.1.stream_status stream_id .timeout) }, acc.2)
          else if status = .ready then
            ({ acc.1 with stream_status :=
                  (dictSet acc.1.stream_status stream_id .error) }, acc.2)
          else acc

/-- The capture loop of `recv`, folding `capStep` over the captures in
dict order starting from an empty fresh-frame dict. -/
def capturePhase (st : CombinerState) (now : ℚ) (reads : ℕ → Option ℕ) :
    CombinerState × List (ℕ × ℕ) :=
  st.stream_caps.foldl (capStep now reads) (st, [])

/-- The delay-buffer update at the top of the tile-selection loop: a fresh
frame is appended with the cycle timestamp and entries older than 10 s are
purged; with no fresh frame the buffer is left as is. -/
def updatedBuffer (st : CombinerState) (now : ℚ) (fresh : List (ℕ × ℕ))
    (stream_id : ℕ) : List StreamFrame :=
  let buf := (dictGet st.frame_buffers stream_id).getD []
  match dictGet fresh stream_id with
  | some f => purgeOlder now 10 (buf ++ [⟨f, now, stream_id⟩])
  | none => buf

/-- One iteration of the nearest-timestamp scan: keep the running best
(frame, time difference) pair unless the current entry improves on it
strictly (the Python `<`, so ties keep the earliest entry). -/
def bestStep (target : ℚ) (acc : Option (ℕ × ℚ)) (fr : StreamFrame) :
    Option (ℕ × ℚ) :=
  match acc with
  | none => some (fr.frame, |fr.timestamp - target|)
  | some (bf, bd) =>
      if |fr.timestamp - target| < bd then
        some (fr.frame, |fr.timestamp - target|)
      else some (bf, bd)

/-- The nearest-timestamp scan of the delayed path: the first buffered
frame minimizing `|timestamp - target_time|`. -/
def bestScan (buf : List StreamFrame) (target : ℚ) : Option ℕ :=
  (buf.foldl (bestStep target) none).map Prod.fst

/-- The tile-selection body of `recv` for one active stream: non-ready
states yield a status placeholder and leave the buffer untouched;
otherwise the buffer is updated, and the tile is the fresh frame (delay 0),
the cached frame (delay 0 fallback, with a 2 s anti-flicker buffer purge),
the nearest buffered frame to `now - delay` (delay ≠ 0), the cached frame
(empty-buffer fallback), or a "preparing" placeholder.  Returns the
stream's new buffer and its tile. -/
def selectTile (st : CombinerState) (now : ℚ) (fresh : List (ℕ × ℕ))
    (stream_id : ℕ) : List StreamFrame × Tile :=
  if (dictGet st.stream_status stream_id).getD .initializing =
        .initializing ∨
      (dictGet st.stream_status stream_id).getD .initializing = .timeout ∨
      (dictGet st.stream_status stream_id).getD .initializing = .error then
    ((dictGet st.frame_buffers stream_id).getD [],
     Tile.statusTile stream_id
       (statusLabel ((dictGet st.stream_status stream_id).getD
         .initializing)))
  else if (dictGet st.stream_delays stream_id).getD 0 = 0 then
    match dictGet fresh stream_id with
    | some f => (updatedBuffer st now fresh stream_id, Tile.frameTile f)
    | none =>
        match (dictGet st.last_frames stream_id).getD none with
        | some lf =>
            (purgeOlder now 2 (updatedBuffer st now fresh stream_id ++
              [⟨lf, now, stream_id⟩]),
             Tile.frameTile lf)
        | none =>
            (updatedBuffer st now fresh stream_id,
             Tile.statusTile stream_id "preparing")
  else
    match bestScan (updatedBuffer st now fresh stream_id)
        (now - (((dictGet st.stream_delays stream_id).getD 0 : ℤ) : ℚ) /
          1000) with
    | some f => (updatedBuffer st now fresh stream_id, Tile.frameTile f)
    | none =>
        match (dictGet st.last_frames stream_id).getD none with
        | some lf =>
            (updatedBuffer st now fresh stream_id, Tile.frameTile lf)
        | none =>
            (updatedBuffer st now fresh stream_id,
             Tile.statusTile stream_id "preparing")

/-- One iteration of the tile-selection loop: the stream's buffer is
replaced by the buffer `selectTile` returns and its tile is appended to
the output dict. -/
def outStep (now : ℚ) (fresh : List (ℕ × ℕ))
    (acc : CombinerState × List (ℕ × Tile)) (stream_id : ℕ) :
    CombinerState × List (ℕ × Tile) :=
  let r := selectTile acc.1 now fresh stream_id
  ({ acc.1 with
      frame_buffers := (dictSet acc.1.frame_buffers stream_id r.1) },
   acc.2 ++ [(stream_id, r.2)])

/-- The tile-selection loop of `recv` over the active streams, threading
the per-stream buffer updates through the state. -/
def outputPhase (st : CombinerState) (now : ℚ) (fresh : List (ℕ × ℕ)) :
    CombinerState × List (ℕ × Tile) :=
  st.active_stream_ids.foldl (outStep now fresh) (st, [])

/-- Canvas dimensions from the active-stream count
(1 → 720×480, 2 → 1440×480, 3 and 4 → 1440×960, anything else 1440×960). -/
def layoutDims (n : ℕ) : ℕ × ℕ :=
  if n = 1 then (720, 480)
  else if n = 2 then (1440, 480)
  else (1440, 960)

/-- The combined frame `recv` returns: canvas dimensions, the tiles placed
on it (empty for the black startup frame), and the engine state after the
cycle. -/
structure RecvResult where
  width : ℕ
  height : ℕ
  tiles : List (ℕ × Tile)
  state : CombinerState
deriving DecidableEq, Repr

/-- `StreamCombinerTrack.recv`: when no capture exists or none is open,
an all-black frame is returned immediately (its dimensions use a default
count of 2 when the active list is empty); otherwise one capture pass and
one tile-selection pass run and the tiles are composited at the canonical
dimensions for the active-stream count.  The catch-all `except` of the
code returns a black frame of the same dimensions instead of raising;
the model is total, so every path returns a `RecvResult`. -/
def recv (st : CombinerState) (now : ℚ) (reads : ℕ → Option ℕ) : RecvResult :=
  if st.stream_caps.isEmpty ∨ ¬ st.stream_caps.any (fun c => c.2) then
    let n := if st.active_stream_ids.isEmpty then 2
             else st.active_stream_ids.length
    ⟨(layoutDims n).1, (layoutDims n).2, [], st⟩
  else
    let cap := capturePhase st now reads
    let out := outputPhase cap.1 now cap.2
    ⟨(layoutDims out.1.active_stream_ids.length).1,
     (layoutDims out.1.active_stream_ids.length).2, out.2, out.1⟩

/-- `StreamCombinerTrack.set_stream_delay` (no clamping: the requested
value is stored as given; a positive delay additionally drops buffered
frames older than `delay + 2 s`; the capture objects are never touched). -/
def set_stream_delay (st : CombinerState) (now : ℚ) (stream_id : ℕ)
    (delay_ms : ℤ) : Bool × CombinerState :=
  if stream_id ∉ st.active_stream_ids then (false, st)
  else
    let st1 := { st with
      stream_delays := dictSet st.stream_delays stream_id delay_ms }
    if delay_ms > 0 then
      let max_age := (delay_ms : ℚ) / 1000 + 2
      let buf := (dictGet st1.frame_buffers stream_id).getD []
      (true, { st1 with frame_buffers :=
          (dictSet st1.frame_buffers stream_id
            (buf.dropWhile (fun fr => decide (now - fr.timestamp > max_age)))) })
    else (true, st1)

/-- The HTTP layer `core/api/cameras.py set_stream_delay`: an id outside
the enabled streams or a delay outside [0, 5000] is rejected with a 400
error (the engine is not called and no state changes); otherwise the
engine call runs, and its `False` result maps to a 500 error. -/
def apiSetStreamDelay (valid_ids : List ℕ) (st : CombinerState) (now : ℚ)
    (stream_id : ℕ) (delay_ms : ℤ) : Except ℕ CombinerState :=
  if stream_id ∉ valid_ids then .error 400
  else if delay_ms < 0 ∨ delay_ms > 5000 then .error 400
  else
    let r := set_stream_delay st now stream_id delay_ms
    if r.1 then .ok r.2 else .error 500

/-- Entry of `StreamCombinerTrack._reconnect_stream`: the status is set to
`reconnecting` unconditionally before the backoff sleep. -/
def reconnectBegin (st : CombinerState) (stream_id : ℕ) : CombinerState :=
  { st with stream_status := dictSet st.stream_status stream_id .reconnecting }

/-- Completion of `_reconnect_stream` after the backoff: a stream missing
from the configuration returns early with the status untouched; otherwise the
capture is replaced, and on a successful open the status returns to
`initializing` with a fresh 60 s deadline, while a failed open sets
`error` (scheduling another retry). -/
def reconnectFinish (st : CombinerState) (stream_id : ℕ) (now : ℚ)
    (found openOk : Bool) : CombinerState :=
  if !found then st
  else
    let st1 := { st with
      stream_caps := dictSet st.stream_caps stream_id openOk }
    if openOk then
      { st1 with
          stream_status := dictSet st1.stream_status stream_id .initializing,
          stream_init_timeout :=
            dictSet st1.stream_init_timeout stream_id (now + 60) }
    else
      { st1 with
          stream_status := dictSet st1.stream_status stream_id .error }

/-! ## Stream combiner: supporting lemmas -/

/-- A capture step never touches the captures, the active list, the
delays, the buffers or the init deadlines. -/
theorem capStep_fields (now : ℚ) (reads : ℕ → Option ℕ)
    (acc : CombinerState × List (ℕ × ℕ)) (cap : ℕ × Bool) :
    (capStep now reads acc cap).1.stream_caps = acc.1.stream_caps ∧
    (capStep now reads acc cap).1.active_stream_ids = acc.1.active_stream_ids ∧
    (capStep now reads acc cap).1.stream_delays = acc.1.stream_delays ∧
    (capStep now reads acc cap).1.frame_buffers = acc.1.frame_buffers ∧
    (capStep now reads acc cap).1.stream_init_timeout =
      acc.1.stream_init_timeout := by
  unfold capStep
  cases hr : reads cap.1 <;> dsimp only <;> (repeat' split) <;>
    exact ⟨rfl, rfl, rfl, rfl, rfl⟩

/-- The capture pass never touches the captures, the active list, the
delays, the buffers or the init deadlines. -/
theorem capturePhase_fields (st : CombinerState) (now : ℚ)
    (reads : ℕ → Option ℕ) :
    (capturePhase st now reads).1.stream_caps = st.stream_caps ∧
    (capturePhase st now reads).1.active_stream_ids = st.active_stream_ids ∧
    (capturePhase st now reads).1.stream_delays = st.stream_delays ∧
    (capturePhase st now reads).1.frame_buffers = st.frame_buffers ∧
    (capturePhase st now reads).1.stream_init_timeout =
      st.stream_init_timeout := by
  unfold capturePhase
  refine foldl_preserve (P := fun acc : CombinerState × List (ℕ × ℕ) =>
      acc.1.stream_caps = st.stream_caps ∧
      acc.1.active_stream_ids = st.active_stream_ids ∧
      acc.1.stream_delays = st.stream_delays ∧
      acc.1.frame_buffers = st.frame_buffers ∧
      acc.1.stream_init_timeout = st.stream_init_timeout)
    st.stream_caps (st, []) ?_ ⟨rfl, rfl, rfl, rfl, rfl⟩
  intro s a _ hs
  have hf := capStep_fields now reads s a
  exact ⟨hf.1.trans hs.1, (hf.2.1).trans hs.2.1, (hf.2.2.1).trans hs.2.2.1,
    (hf.2.2.2.1).trans hs.2.2.2.1, (hf.2.2.2.2).trans hs.2.2.2.2⟩

/-- A tile-selection step only touches the frame buffers. -/
theorem outStep_fields (now : ℚ) (fresh : List (ℕ × ℕ))
    (acc : CombinerState × List (ℕ × Tile)) (stream_id : ℕ) :
    (outStep now fresh acc stream_id).1.stream_caps = acc.1.stream_caps ∧
    (outStep now fresh acc stream_id).1.active_stream_ids =
      acc.1.active_stream_ids ∧
    (outStep now fresh acc stream_id).1.stream_delays = acc.1.stream_delays ∧
    (outStep now fresh acc stream_id).1.last_frames = acc.1.last_frames ∧
    (outStep now fresh acc stream_id).1.stream_status = acc.1.stream_status ∧
    (outStep now fresh acc stream_id).1.stream_init_timeout =
      acc.1.stream_init_timeout :=
  ⟨rfl, rfl, rfl, rfl, rfl, rfl⟩

/-- The tile-selection pass only touches the frame buffers. -/
theorem outputPhase_fields (st : CombinerState) (now : ℚ)
    (fresh : List (ℕ × ℕ)) :
    (outputPhase st now fresh).1.stream_caps = st.stream_caps ∧
    (outputPhase st now fresh).1.active_stream_ids = st.active_stream_ids ∧
    (outputPhase st now fresh).1.stream_delays = st.stream_delays ∧
    (outputPhase st now fresh).1.last_frames = st.last_frames ∧
    (outputPhase st now fresh).1.stream_status = st.stream_status ∧
    (outputPhase st now fresh).1.stream_init_timeout =
      st.stream_init_timeout := by
  unfold outputPhase
  refine foldl_preserve (P := fun acc : CombinerState × List (ℕ × Tile) =>
      acc.1.stream_caps = st.stream_caps ∧
      acc.1.active_stream_ids = st.active_stream_ids ∧
      acc.1.stream_delays = st.stream_delays ∧
      acc.1.last_frames = st.last_frames ∧
      acc.1.stream_status = st.stream_status ∧
      acc.1.stream_init_timeout = st.stream_init_timeout)
    st.active_stream_ids (st, []) ?_ ⟨rfl, rfl, rfl, rfl, rfl, rfl⟩
  intro s a _ hs
  exact hs

/-- The dimensions `recv` returns are the canonical layout for the
active-stream count whenever the active list is non-empty, on the early
black-frame path and on the main path alike. -/
theorem recv_dims (st : CombinerState) (now : ℚ) (reads : ℕ → Option ℕ)
    (h : st.active_stream_ids.isEmpty = false) :
    (recv st now reads).width = (layoutDims st.active_stream_ids.length).1 ∧
    (recv st now reads).height = (layoutDims st.active_stream_ids.length).2 := by
  have hact : (outputPhase (capturePhase st now reads).1 now
      (capturePhase st now reads).2).1.active_stream_ids =
      st.active_stream_ids := by
    rw [(outputPhase_fields _ _ _).2.1]
    exact (capturePhase_fields st now reads).2.1
  unfold recv
  split
  · dsimp only
    rw [h]
    exact ⟨rfl, rfl⟩
  · dsimp only
    rw [hact]
    exact ⟨rfl, rfl⟩

/-- A two-stream combiner state with both captures open and both streams
ready, used to instantiate the general theorems. -/
def comboState : CombinerState :=
  { stream_caps := [(0, true), (1, true)],
    active_stream_ids := [0, 1],
    stream_delays := [(0, 0), (1, 0)],
    frame_buffers := [(0, []), (1, [])],
    last_frames := [(0, none), (1, none)],
    stream_status := [(0, .ready), (1, .ready)],
    stream_init_timeout := [(0, 30), (1, 30)] }

/-! ## Claims about the stream combiner -/

/-- C10: for every stream id not in the active list and every delay value,
`set_stream_delay` returns `False` and leaves the whole engine state
unchanged — no delay entry, buffer, cached frame, status or capture handle
is created or modified. -/
theorem C10_confirmed (st : CombinerState) (now : ℚ) (stream_id : ℕ)
    (delay_ms : ℤ) (h : stream_id ∉ st.active_stream_ids) :
    set_stream_delay st now stream_id delay_ms = (false, st) := by
  unfold set_stream_delay
  rw [if_pos h]

theorem C10_confirmed_witness :
    (5 ∉ comboState.active_stream_ids) ∧
    set_stream_delay comboState 100 5 250 = (false, comboState) :=
  ⟨by decide, C10_confirmed comboState 100 5 250 (by decide)⟩

/-- C2: `recv` is a total function of the engine state (the catch-all
handler of the code keeps every cycle exception-free), and the frame it
returns has the canonical resolution for the active-stream count:
1 stream → 720×480, 2 → 1440×480, 3 or 4 → 1440×960 — on every path,
including before any capture has opened or produced data. -/
theorem C2_confirmed (st : CombinerState) (now : ℚ) (reads : ℕ → Option ℕ) :
    (st.active_stream_ids.length = 1 →
      (recv st now reads).width = 720 ∧ (recv st now reads).height = 480) ∧
    (st.active_stream_ids.length = 2 →
      (recv st now reads).width = 1440 ∧ (recv st now reads).height = 480) ∧
    (st.active_stream_ids.length = 3 ∨ st.active_stream_ids.length = 4 →
      (recv st now reads).width = 1440 ∧ (recv st now reads).height = 960) := by
  have hne : ∀ n, st.active_stream_ids.length = n → n ≠ 0 →
      st.active_stream_ids.isEmpty = false := by
    intro n hn h0
    cases hl : st.active_stream_ids with
    | nil => rw [hl] at hn; simp at hn; omega
    | cons a t => rfl
  refine ⟨?_, ?_, ?_⟩
  · intro h1
    have := recv_dims st now reads (hne 1 h1 (by omega))
    rw [h1] at this
    exact ⟨this.1, this.2⟩
  · intro h2
    have := recv_dims st now reads (hne 2 h2 (by omega))
    rw [h2] at this
    exact ⟨this.1, this.2⟩
  · intro h34
    rcases h34 with h3 | h4
    · have := recv_dims st now reads (hne 3 h3 (by omega))
      rw [h3] at this
      exact ⟨this.1, this.2⟩
    · have := recv_dims st now reads (hne 4 h4 (by omega))
      rw [h4] at this
      exact ⟨this.1, this.2⟩

theorem C2_confirmed_witness :
    comboState.active_stream_ids.length = 2 ∧
    (recv comboState 0 (fun j => some (j + 3))).width = 1440 ∧
    (recv comboState 0 (fun j => some (j + 3))).height = 480 :=
  ⟨by decide,
   ((C2_confirmed comboState 0 (fun j => some (j + 3))).2.1 (by decide)).1,
   ((C2_confirmed comboState 0 (fun j => some (j + 3))).2.1 (by decide)).2⟩

/-- C3 counterexample: `set_stream_delay` does not clamp to [0, 5000] —
requesting 6000 ms on a valid stream stores 6000 ms, not
`min (max 6000 0) 5000 = 5000`. -/
theorem C3_counterexample :
    (set_stream_delay comboState 100 0 6000).2.stream_delays =
      [(0, 6000), (1, 0)] ∧
    dictGet (set_stream_delay comboState 100 0 6000).2.stream_delays 0 =
      some 6000 ∧
    ¬ ((6000 : ℤ) = min (max 6000 0) 5000) :=
  ⟨by decide, by decide, by decide⟩

/-- C3 (amended): for a valid stream id the engine stores the requested
delay as given (no clamping — range enforcement lives in the HTTP layer,
which rejects values outside [0, 5000] with a 400 error instead of
clamping), a positive delay purges buffered frames older than
`delay + 2 s`, other streams' delays and buffers are untouched, and the
captures, statuses and cached frames — hence the underlying connections —
are never touched. -/
theorem C3_amended :
    (∀ (st : CombinerState) (now : ℚ) (stream_id : ℕ) (delay_ms : ℤ),
      stream_id ∈ st.active_stream_ids →
      (set_stream_delay st now stream_id delay_ms).1 = true ∧
      dictGet (set_stream_delay st now stream_id delay_ms).2.stream_delays
        stream_id = some delay_ms ∧
      (set_stream_delay st now stream_id delay_ms).2.stream_caps =
        st.stream_caps ∧
      (set_stream_delay st now stream_id delay_ms).2.active_stream_ids =
        st.active_stream_ids ∧
      (set_stream_delay st now stream_id delay_ms).2.stream_status =
        st.stream_status ∧
      (set_stream_delay st now stream_id delay_ms).2.last_frames =
        st.last_frames ∧
      (∀ j, j ≠ stream_id →
        dictGet (set_stream_delay st now stream_id delay_ms).2.stream_delays
          j = dictGet st.stream_delays j) ∧
      (delay_ms > 0 →
        dictGet (set_stream_delay st now stream_id delay_ms).2.frame_buffers
          stream_id =
        some (((dictGet st.frame_buffers stream_id).getD []).dropWhile
          (fun fr =>
            decide (now - fr.timestamp > (delay_ms : ℚ) / 1000 + 2)))) ∧
      (delay_ms ≤ 0 →
        (set_stream_delay st now stream_id delay_ms).2.frame_buffers =
          st.frame_buffers) ∧
      (∀ j, j ≠ stream_id →
        dictGet (set_stream_delay st now stream_id delay_ms).2.frame_buffers
          j = dictGet st.frame_buffers j)) ∧
    (∀ (vids : List ℕ) (st : CombinerState) (now : ℚ) (stream_id : ℕ)
      (delay_ms : ℤ),
      delay_ms < 0 ∨ delay_ms > 5000 →
      apiSetStreamDelay vids st now stream_id delay_ms = .error 400) := by
  constructor
  · intro st now stream_id delay_ms hmem
    unfold set_stream_delay
    rw [if_neg (fun hc => hc hmem)]
    by_cases hd : delay_ms > 0
    · rw [if_pos hd]
      dsimp only
      refine ⟨rfl, dictGet_dictSet_self, rfl, rfl, rfl, rfl,
        fun j hj => dictGet_dictSet_ne hj,
        fun _ => dictGet_dictSet_self,
        fun h0 => absurd hd (not_lt.mpr h0),
        fun j hj => dictGet_dictSet_ne hj⟩
    · rw [if_neg hd]
      dsimp only
      refine ⟨rfl, dictGet_dictSet_self, rfl, rfl, rfl, rfl,
        fun j hj => dictGet_dictSet_ne hj,
        fun hpos => absurd hpos hd,
        fun _ => rfl,
        fun j hj => rfl⟩
  · intro vids st now stream_id delay_ms hrange
    unfold apiSetStreamDelay
    by_cases hv : stream_id ∈ vids
    · rw [if_neg (fun hc => hc hv), if_pos hrange]
    · rw [if_pos hv]

theorem C3_amended_witness :
    (0 ∈ comboState.active_stream_ids ∧
      (set_stream_delay comboState 100 0 1500).1 = true) ∧
    ((6000 : ℤ) < 0 ∨ (6000 : ℤ) > 5000) ∧
    apiSetStreamDelay [0, 1] comboState 100 0 6000 = .error 400 :=
  ⟨⟨by decide, (C3_amended.1 comboState 100 0 1500 (by decide)).1⟩,
   Or.inr (by decide),
   C3_amended.2 [0, 1] comboState 100 0 6000 (Or.inr (by decide))⟩

/-- The health-state transitions the specification lists:
initializing → ready, initializing → timeout, ready → error,
error → reconnecting, reconnecting → initializing. -/
def specAllowed : StreamStatus → StreamStatus → Bool
  | .initializing, .ready => true
  | .initializing, .timeout => true
  | .ready, .error => true
  | .error, .reconnecting => true
  | .reconnecting, .initializing => true
  | _, _ => false

/-- One capture step either leaves a stream's status alone or applies a
listed transition to the stream it processes. -/
theorem capStep_status (now : ℚ) (reads : ℕ → Option ℕ)
    (acc : CombinerState × List (ℕ × ℕ)) (cap : ℕ × Bool) (j : ℕ) :
    dictGet (capStep now reads acc cap).1.stream_status j =
      dictGet acc.1.stream_status j ∨
    (j = cap.1 ∧
      specAllowed ((dictGet acc.1.stream_status j).getD .initializing)
        ((dictGet (capStep now reads acc cap).1.stream_status j).getD
          .initializing) = true) := by
  unfold capStep
  dsimp only
  split
  next f heq =>
    split
    next hcond =>
      by_cases hj : j = cap.1
      · subst hj
        right
        refine ⟨rfl, ?_⟩
        rw [dictGet_dictSet_self, hcond]
        rfl
      · left
        exact dictGet_dictSet_ne hj
    next => left; rfl
  next heq =>
    split
    next hcond =>
      by_cases hj : j = cap.1
      · subst hj
        right
        refine ⟨rfl, ?_⟩
        rw [dictGet_dictSet_self, hcond.2]
        rfl
      · left
        exact dictGet_dictSet_ne hj
    next =>
      split
      next hcond =>
        by_cases hj : j = cap.1
        · subst hj
          right
          refine ⟨rfl, ?_⟩
          rw [dictGet_dictSet_self, hcond]
          rfl
        · left
          exact dictGet_dictSet_ne hj
      next => left; rfl

/-- Over a capture list with distinct stream ids, the capture fold takes
every stream's status either nowhere or along one listed transition from
its value at the start of the pass. -/
theorem captureFold_status (now : ℚ) (reads : ℕ → Option ℕ)
    (m0 : List (ℕ × StreamStatus)) :
    ∀ (L : List (ℕ × Bool)) (acc : CombinerState × List (ℕ × ℕ)),
      (L.map Prod.fst).Nodup →
      (∀ k, (k ∈ L.map Prod.fst →
          dictGet acc.1.stream_status k = dictGet m0 k) ∧
        (dictGet acc.1.stream_status k = dictGet m0 k ∨
          specAllowed ((dictGet m0 k).getD .initializing)
            ((dictGet acc.1.stream_status k).getD .initializing) = true)) →
      ∀ j, dictGet (L.foldl (capStep now reads) acc).1.stream_status j =
          dictGet m0 j ∨
        specAllowed ((dictGet m0 j).getD .initializing)
          ((dictGet (L.foldl (capStep now reads) acc).1.stream_status j).getD
            .initializing) = true := by
  intro L
  induction L with
  | nil => exact fun acc _ hinv j => (hinv j).2
  | cons c t ih =>
      intro acc hnd hinv j
      have hnd' := List.nodup_cons.mp hnd
      apply ih (capStep now reads acc c) hnd'.2
      intro k
      constructor
      · intro hk
        have hkc : k ≠ c.1 := fun h => hnd'.1 (h ▸ hk)
        rcases capStep_status now reads acc c k with h | h
        · rw [h]
          exact (hinv k).1 (List.mem_cons_of_mem _ hk)
        · exact absurd h.1 hkc
      · rcases capStep_status now reads acc c k with h | h
        · rw [h]
          exact (hinv k).2
        · have hkmem : k ∈ (c :: t).map Prod.fst := by
            rw [h.1]
            exact List.mem_map_of_mem _ (List.mem_cons_self c t)
          have heq := (hinv k).1 hkmem
          rw [heq] at h
          exact Or.inr h.2

/-- Per `recv` cycle, every stream's health status either stays put or
moves along one listed transition. -/
theorem recv_status (st : CombinerState) (now : ℚ) (reads : ℕ → Option ℕ)
    (hnd : (st.stream_caps.map Prod.fst).Nodup) (j : ℕ) :
    dictGet (recv st now reads).state.stream_status j =
      dictGet st.stream_status j ∨
    specAllowed ((dictGet st.stream_status j).getD .initializing)
      ((dictGet (recv st now reads).state.stream_status j).getD
        .initializing) = true := by
  unfold recv
  split
  · left; rfl
  · dsimp only
    rw [(outputPhase_fields _ _ _).2.2.2.2.1]
    exact captureFold_status now reads st.stream_status st.stream_caps
      (st, []) hnd (fun k => ⟨fun _ => rfl, Or.inl rfl⟩) j

/-- C9 counterexample: a reachable run produces the transition
reconnecting → error, which the listed transition set excludes: a ready
stream whose read fails goes to error, the scheduled reconnect sets
reconnecting, and a failed reopen then sets error. -/
theorem C9_counterexample :
    dictGet (recv comboState 0 (fun _ => none)).state.stream_status 0 =
      some .error ∧
    dictGet (reconnectBegin (recv comboState 0 (fun _ => none)).state
        0).stream_status 0 = some .reconnecting ∧
    dictGet (reconnectFinish
        (reconnectBegin (recv comboState 0 (fun _ => none)).state 0)
        0 50 true false).stream_status 0 = some .error ∧
    specAllowed .reconnecting .error = false := by
  refine ⟨?_, ?_, ?_, rfl⟩ <;> with_unfolding_all rfl

/-- C9 (amended): every status change of a `recv` cycle follows a listed
transition (initializing → ready, initializing → timeout, ready → error);
a reconnect start moves an error stream to reconnecting and touches
nothing else; and reconnect completion moves a reconnecting stream either
to initializing (successful reopen) or — beyond the listed set — to error
(failed reopen). -/
theorem C9_amended :
    (∀ (st : CombinerState) (now : ℚ) (reads : ℕ → Option ℕ),
      (st.stream_caps.map Prod.fst).Nodup → ∀ j,
      dictGet (recv st now reads).state.stream_status j =
        dictGet st.stream_status j ∨
      specAllowed ((dictGet st.stream_status j).getD .initializing)
        ((dictGet (recv st now reads).state.stream_status j).getD
          .initializing) = true) ∧
    (∀ (st : CombinerState) (stream_id : ℕ),
      (dictGet st.stream_status stream_id).getD .initializing = .error →
      ∀ j, dictGet (reconnectBegin st stream_id).stream_status j =
        dictGet st.stream_status j ∨
      specAllowed ((dictGet st.stream_status j).getD .initializing)
        ((dictGet (reconnectBegin st stream_id).stream_status j).getD
          .initializing) = true) ∧
    (∀ (st : CombinerState) (stream_id : ℕ) (now : ℚ) (found openOk : Bool),
      (dictGet st.stream_status stream_id).getD .initializing =
        .reconnecting →
      ∀ j, dictGet (reconnectFinish st stream_id now found
          openOk).stream_status j = dictGet st.stream_status j ∨
      specAllowed ((dictGet st.stream_status j).getD .initializing)
        ((dictGet (reconnectFinish st stream_id now found
          openOk).stream_status j).getD .initializing) = true ∨
      ((dictGet st.stream_status j).getD .initializing = .reconnecting ∧
        (dictGet (reconnectFinish st stream_id now found
          openOk).stream_status j).getD .initializing = .error)) := by
  refine ⟨recv_status, ?_, ?_⟩
  · intro st stream_id h j
    unfold reconnectBegin
    by_cases hj : j = stream_id
    · subst hj
      right
      rw [dictGet_dictSet_self, h]
      rfl
    · left
      exact dictGet_dictSet_ne hj
  · intro st stream_id now found openOk h j
    unfold reconnectFinish
    split
    · left; rfl
    · dsimp only
      split
      · by_cases hj : j = stream_id
        · subst hj
          right; left
          rw [dictGet_dictSet_self, h]
          rfl
        · left
          exact dictGet_dictSet_ne hj
      · by_cases hj : j = stream_id
        · subst hj
          right; right
          refine ⟨h, ?_⟩
          rw [dictGet_dictSet_self]
          rfl
        · left
          exact dictGet_dictSet_ne hj

/-- A one-stream combiner state whose stream is in the error status. -/
def reconErrState : CombinerState :=
  { stream_caps := [(0, true)],
    active_stream_ids := [0],
    stream_delays := [(0, 0)],
    frame_buffers := [(0, [])],
    last_frames := [(0, some 1)],
    stream_status := [(0, .error)],
    stream_init_timeout := [(0, 30)] }

theorem C9_amended_witness :
    ((comboState.stream_caps.map Prod.fst).Nodup ∧
      (dictGet (recv comboState 0 (fun _ => some 9)).state.stream_status 1 =
        dictGet comboState.stream_status 1 ∨
      specAllowed ((dictGet comboState.stream_status 1).getD .initializing)
        ((dictGet (recv comboState 0
          (fun _ => some 9)).state.stream_status 1).getD
          .initializing) = true)) ∧
    ((dictGet reconErrState.stream_status 0).getD .initializing = .error ∧
      (dictGet (reconnectBegin reconErrState 0).stream_status 0 =
        dictGet reconErrState.stream_status 0 ∨
      specAllowed ((dictGet reconErrState.stream_status 0).getD
          .initializing)
        ((dictGet (reconnectBegin reconErrState 0).stream_status 0).getD
          .initializing) = true)) :=
  ⟨⟨by decide, C9_amended.1 comboState 0 (fun _ => some 9) (by decide) 1⟩,
   ⟨by decide, C9_amended.2.1 reconErrState 0 (by decide) 0⟩⟩

/-- Tile selection for a stream reads only that stream's delay, status,
buffer and cached frame, so two states agreeing there select alike. -/
theorem selectTile_congr (st st' : CombinerState) (now : ℚ)
    (fresh : List (ℕ × ℕ)) (stream_id : ℕ)
    (h1 : dictGet st.stream_delays stream_id =
      dictGet st'.stream_delays stream_id)
    (h2 : dictGet st.stream_status stream_id =
      dictGet st'.stream_status stream_id)
    (h3 : dictGet st.frame_buffers stream_id =
      dictGet st'.frame_buffers stream_id)
    (h4 : dictGet st.last_frames stream_id =
      dictGet st'.last_frames stream_id) :
    selectTile st now fresh stream_id = selectTile st' now fresh stream_id := by
  unfold selectTile updatedBuffer
  rw [h1, h2, h3, h4]

/-- The tile-selection fold only ever appends to the tile dict. -/
theorem outFold_mono (now : ℚ) (fresh : List (ℕ × ℕ)) :
    ∀ (L : List ℕ) (acc : CombinerState × List (ℕ × Tile)) (p : ℕ × Tile),
      p ∈ acc.2 → p ∈ (L.foldl (outStep now fresh) acc).2 := by
  intro L
  induction L with
  | nil => exact fun acc p hp => hp
  | cons k t ih =>
      intro acc p hp
      exact ih _ p (List.mem_append_left _ hp)

/-- Folding the tile-selection step over streams other than `j` leaves
stream `j`'s buffer alone and adds only tiles keyed by those streams. -/
theorem outFold_preserve (now : ℚ) (fresh : List (ℕ × ℕ)) (j : ℕ) :
    ∀ (L : List ℕ) (acc : CombinerState × List (ℕ × Tile)),
      j ∉ L →
      dictGet (L.foldl (outStep now fresh) acc).1.frame_buffers j =
        dictGet acc.1.frame_buffers j ∧
      (∀ p ∈ (L.foldl (outStep now fresh) acc).2, p ∈ acc.2 ∨ p.1 ∈ L) := by
  intro L
  induction L with
  | nil => exact fun acc _ => ⟨rfl, fun p hp => Or.inl hp⟩
  | cons k t ih =>
      intro acc hj
      have hjk : j ≠ k := fun h => hj (h ▸ List.mem_cons_self k t)
      have hjt : j ∉ t := fun h => hj (List.mem_cons_of_mem _ h)
      obtain ⟨hb, hp⟩ := ih (outStep now fresh acc k) hjt
      constructor
      · rw [List.foldl_cons, hb]
        exact dictGet_dictSet_ne hjk
      · intro p hpmem
        rw [List.foldl_cons] at hpmem
        rcases hp p hpmem with h | h
        · have h' : p ∈ acc.2 ++ [(k, (selectTile acc.1 now fresh k).2)] := h
          rcases List.mem_append.mp h' with h2 | h2
          · exact Or.inl h2
          · right
            rw [List.mem_singleton.mp h2]
            exact List.mem_cons_self k t
        · exact Or.inr (List.mem_cons_of_mem _ h)

/-- Over a duplicate-free stream list containing `j` and a state agreeing
with `st1` where tile selection looks, the tile-selection fold gives
stream `j` the buffer and the tile that `selectTile` computes from `st1`,
and gives it exactly one tile. -/
theorem outFold_spec (st1 : CombinerState) (now : ℚ) (fresh : List (ℕ × ℕ))
    (j : ℕ) :
    ∀ (L : List ℕ) (acc : CombinerState × List (ℕ × Tile)),
      L.Nodup → j ∈ L →
      acc.1.stream_delays = st1.stream_delays →
      acc.1.stream_status = st1.stream_status →
      acc.1.last_frames = st1.last_frames →
      dictGet acc.1.frame_buffers j = dictGet st1.frame_buffers j →
      (∀ p ∈ acc.2, p.1 ≠ j) →
      dictGet (L.foldl (outStep now fresh) acc).1.frame_buffers j =
        some (selectTile st1 now fresh j).1 ∧
      (∃ p ∈ (L.foldl (outStep now fresh) acc).2, p.1 = j) ∧
      (∀ p ∈ (L.foldl (outStep now fresh) acc).2, p.1 = j →
        p.2 = (selectTile st1 now fresh j).2) := by
  intro L
  induction L with
  | nil =>
      intro acc _ hj
      exact absurd hj (List.not_mem_nil j)
  | cons k t ih =>
      intro acc hnd hjmem hd hs hl hb htiles
      have hnd' := List.nodup_cons.mp hnd
      by_cases hkj : k = j
      · subst hkj
        have hsel : selectTile acc.1 now fresh k = selectTile st1 now fresh k := by
          apply selectTile_congr
          · rw [hd]
          · rw [hs]
          · exact hb
          · rw [hl]
        have hknt : k ∉ t := hnd'.1
        obtain ⟨hbp, hpp⟩ := outFold_preserve now fresh k t
          (outStep now fresh acc k) hknt
        rw [List.foldl_cons]
        refine ⟨?_, ?_, ?_⟩
        · rw [hbp,
            show (outStep now fresh acc k).1.frame_buffers =
              dictSet acc.1.frame_buffers k (selectTile acc.1 now fresh k).1
              from rfl,
            dictGet_dictSet_self, hsel]
        · refine ⟨(k, (selectTile st1 now fresh k).2), ?_, rfl⟩
          apply outFold_mono
          show (k, (selectTile st1 now fresh k).2) ∈
            acc.2 ++ [(k, (selectTile acc.1 now fresh k).2)]
          rw [hsel]
          exact List.mem_append_right _ (List.mem_singleton.mpr rfl)
        · intro p hp hpj
          rcases hpp p hp with h | h
          · have h' : p ∈ acc.2 ++ [(k, (selectTile acc.1 now fresh k).2)] := h
            rcases List.mem_append.mp h' with h2 | h2
            · exact absurd hpj (htiles p h2)
            · rw [List.mem_singleton.mp h2]
              exact congrArg Prod.snd (congrArg (fun s => (k, s.2)) hsel)
          · rw [hpj] at h
            exact absurd h hknt
      · have hjk : j ≠ k := fun h => hkj h.symm
        have hjt : j ∈ t := by
          rcases List.mem_cons.mp hjmem with h | h
          · exact absurd h.symm hkj
          · exact h
        rw [List.foldl_cons]
        refine ih (outStep now fresh acc k) hnd'.2 hjt ?_ ?_ ?_ ?_ ?_
        · rw [(outStep_fields now fresh acc k).2.2.1, hd]
        · rw [(outStep_fields now fresh acc k).2.2.2.2.1, hs]
        · rw [(outStep_fields now fresh acc k).2.2.2.1, hl]
        · rw [show (outStep now fresh acc k).1.frame_buffers =
              dictSet acc.1.frame_buffers k (selectTile acc.1 now fresh k).1
              from rfl,
            dictGet_dictSet_ne hjk, hb]
        · intro p hp
          have h' : p ∈ acc.2 ++ [(k, (selectTile acc.1 now fresh k).2)] := hp
          rcases List.mem_append.mp h' with h2 | h2
          · exact htiles p h2
          · rw [List.mem_singleton.mp h2]
            exact fun hc => hkj hc

/-- For a duplicate-free active list, the cycle's tile and final buffer of
each active stream are exactly what `selectTile` computes on the
post-capture state, and each active stream gets exactly one tile. -/
theorem outputPhase_spec (st1 : CombinerState) (now : ℚ)
    (fresh : List (ℕ × ℕ)) (j : ℕ) (hnd : st1.active_stream_ids.Nodup)
    (hj : j ∈ st1.active_stream_ids) :
    dictGet (outputPhase st1 now fresh).1.frame_buffers j =
      some (selectTile st1 now fresh j).1 ∧
    (∃ p ∈ (outputPhase st1 now fresh).2, p.1 = j) ∧
    (∀ p ∈ (outputPhase st1 now fresh).2, p.1 = j →
      p.2 = (selectTile st1 now fresh j).2) :=
  outFold_spec st1 now fresh j st1.active_stream_ids (st1, []) hnd hj
    rfl rfl rfl rfl (fun p hp => absurd hp (List.not_mem_nil p))

/-- Continuing the nearest scan from a running best pair yields a best
pair that is the running one or comes from the list, never worse than the
running one, and no worse than any list entry. -/
theorem bestFold_some (target : ℚ) :
    ∀ (buf : List StreamFrame) (bf : ℕ) (bd : ℚ),
      ∃ rf rd, buf.foldl (bestStep target) (some (bf, bd)) = some (rf, rd) ∧
        ((rf = bf ∧ rd = bd) ∨
          ∃ fr ∈ buf, rf = fr.frame ∧ rd = |fr.timestamp - target|) ∧
        rd ≤ bd ∧ ∀ fr ∈ buf, rd ≤ |fr.timestamp - target| := by
  intro buf
  induction buf with
  | nil =>
      intro bf bd
      exact ⟨bf, bd, rfl, Or.inl ⟨rfl, rfl⟩, le_refl _,
        fun fr hfr => absurd hfr (List.not_mem_nil fr)⟩
  | cons a t ih =>
      intro bf bd
      rw [List.foldl_cons]
      by_cases hlt : |a.timestamp - target| < bd
      · rw [show bestStep target (some (bf, bd)) a =
            some (a.frame, |a.timestamp - target|) by
          unfold bestStep; dsimp only; rw [if_pos hlt]]
        obtain ⟨rf, rd, hfold, hsrc, hle, hall⟩ := ih a.frame
          |a.timestamp - target|
        refine ⟨rf, rd, hfold, ?_, le_trans hle (le_of_lt hlt), ?_⟩
        · rcases hsrc with ⟨h1, h2⟩ | ⟨fr, hfr, h1, h2⟩
          · exact Or.inr ⟨a, List.mem_cons_self a t, h1, h2⟩
          · exact Or.inr ⟨fr, List.mem_cons_of_mem _ hfr, h1, h2⟩
        · intro fr hfr
          rcases List.mem_cons.mp hfr with h | h
          · rw [h]; exact hle
          · exact hall fr h
      · rw [show bestStep target (some (bf, bd)) a = some (bf, bd) by
          unfold bestStep; dsimp only; rw [if_neg hlt]]
        obtain ⟨rf, rd, hfold, hsrc, hle, hall⟩ := ih bf bd
        refine ⟨rf, rd, hfold, ?_, hle, ?_⟩
        · rcases hsrc with h | ⟨fr, hfr, h1, h2⟩
          · exact Or.inl h
          · exact Or.inr ⟨fr, List.mem_cons_of_mem _ hfr, h1, h2⟩
        · intro fr hfr
          rcases List.mem_cons.mp hfr with h | h
          · rw [h]; exact le_trans hle (not_lt.mp hlt)
          · exact hall fr h

/-- On a non-empty buffer the nearest scan returns a buffered frame whose
time difference to the target is minimal over the whole buffer. -/
theorem bestScan_spec (buf : List StreamFrame) (target : ℚ) (hne : buf ≠ []) :
    ∃ fr ∈ buf, bestScan buf target = some fr.frame ∧
      ∀ fr2 ∈ buf, |fr.timestamp - target| ≤ |fr2.timestamp - target| := by
  cases buf with
  | nil => exact absurd rfl hne
  | cons a t =>
      unfold bestScan
      rw [List.foldl_cons,
        show bestStep target none a =
          some (a.frame, |a.timestamp - target|) from rfl]
      obtain ⟨rf, rd, hfold, hsrc, hle, hall⟩ := bestFold_some target t
        a.frame |a.timestamp - target|
      rw [hfold]
      rcases hsrc with ⟨h1, h2⟩ | ⟨fr, hfr, h1, h2⟩
      · refine ⟨a, List.mem_cons_self a t, ?_, ?_⟩
        · simp only [Option.map_some']
          rw [h1]
        · intro fr2 hfr2
          rcases List.mem_cons.mp hfr2 with h | h
          · rw [h]
          · exact h2 ▸ hall fr2 h
      · refine ⟨fr, List.mem_cons_of_mem _ hfr, ?_, ?_⟩
        · simp only [Option.map_some']
          rw [h1]
        · intro fr2 hfr2
          rcases List.mem_cons.mp hfr2 with h | h
          · rw [h]
            exact h2 ▸ hle
          · exact h2 ▸ hall fr2 h

/-- With at least one open capture, `recv` takes the main path: its tiles
and final state are those of the tile-selection pass run after the
capture pass. -/
theorem recv_not_early (st : CombinerState) (now : ℚ) (reads : ℕ → Option ℕ)
    (hmain : st.stream_caps.any (fun c => c.2) = true) :
    (recv st now reads).tiles =
      (outputPhase (capturePhase st now reads).1 now
        (capturePhase st now reads).2).2 ∧
    (recv st now reads).state =
      (outputPhase (capturePhase st now reads).1 now
        (capturePhase st now reads).2).1 := by
  unfold recv
  split
  next h =>
    exfalso
    obtain ⟨x, hx, hpx⟩ := List.any_eq_true.mp hmain
    rcases h with h | h
    · cases hcaps : st.stream_caps with
      | nil => rw [hcaps] at hx; exact absurd hx (List.not_mem_nil x)
      | cons a l => rw [hcaps] at h; simp at h
    · exact h hmain
  next => exact ⟨rfl, rfl⟩

/-- Dropping the stale prefix keeps a timestamp-sorted buffer sorted. -/
theorem purge_pairwise (now w : ℚ) (buf : List StreamFrame)
    (h : List.Pairwise (fun a b : StreamFrame =>
      a.timestamp ≤ b.timestamp) buf) :
    List.Pairwise (fun a b : StreamFrame => a.timestamp ≤ b.timestamp)
      (purgeOlder now w buf) :=
  List.Pairwise.sublist (List.dropWhile_sublist _) h

/-- Every frame surviving the purge was in the buffer. -/
theorem purge_subset (now w : ℚ) (buf : List StreamFrame)
    {fr : StreamFrame} (h : fr ∈ purgeOlder now w buf) : fr ∈ buf :=
  (List.dropWhile_sublist _).subset h

/-- On a timestamp-sorted buffer, the purge leaves only frames within the
window: once the head is fresh enough, all later frames are as well. -/
theorem purge_bound (now w : ℚ) :
    ∀ (buf : List StreamFrame),
      List.Pairwise (fun a b : StreamFrame =>
        a.timestamp ≤ b.timestamp) buf →
      ∀ fr ∈ purgeOlder now w buf, now - fr.timestamp ≤ w := by
  intro buf
  induction buf with
  | nil => intro _ fr hfr; simp [purgeOlder] at hfr
  | cons a t ih =>
      intro hp fr hfr
      rw [List.pairwise_cons] at hp
      unfold purgeOlder at hfr
      rw [List.dropWhile_cons] at hfr
      split at hfr
      next hpa => exact ih hp.2 fr hfr
      next hpa =>
        have ha : ¬ (now - a.timestamp > w) := by simpa using hpa
        rcases List.mem_cons.mp hfr with h | h
        · rw [h]; exact not_lt.mp ha
        · have h1 : a.timestamp ≤ fr.timestamp := hp.1 fr h
          have h2 := not_lt.mp ha
          linarith

/-- Appending a frame stamped with the current cycle time keeps the buffer
sorted and keeps every timestamp at most `now`. -/
theorem append_now_sorted (now : ℚ) (buf : List StreamFrame)
    (x : StreamFrame) (hx : x.timestamp = now)
    (hs : List.Pairwise (fun a b : StreamFrame =>
      a.timestamp ≤ b.timestamp) buf)
    (hb : ∀ fr ∈ buf, fr.timestamp ≤ now) :
    List.Pairwise (fun a b : StreamFrame => a.timestamp ≤ b.timestamp)
      (buf ++ [x]) ∧
    ∀ fr ∈ buf ++ [x], fr.timestamp ≤ now := by
  constructor
  · rw [List.pairwise_append]
    refine ⟨hs, List.pairwise_singleton _ _, ?_⟩
    intro a ha b hb2
    rw [List.mem_singleton.mp hb2, hx]
    exact hb a ha
  · intro fr hfr
    rcases List.mem_append.mp hfr with h | h
    · exact hb fr h
    · rw [List.mem_singleton.mp h, hx]

/-- With a ready status and a nonzero delay, tile selection returns the
updated buffer unchanged and picks the nearest-scan result, falling back
to the cached frame and then to a placeholder. -/
theorem selectTile_delayed (st1 : CombinerState) (now : ℚ)
    (fresh : List (ℕ × ℕ)) (stream_id : ℕ)
    (hready : (dictGet st1.stream_status stream_id).getD .initializing =
      .ready)
    (hdelay : (dictGet st1.stream_delays stream_id).getD 0 ≠ 0) :
    selectTile st1 now fresh stream_id =
      (updatedBuffer st1 now fresh stream_id,
       match bestScan (updatedBuffer st1 now fresh stream_id)
          (now - (((dictGet st1.stream_delays stream_id).getD 0 : ℤ) : ℚ) /
            1000) with
       | some f => Tile.frameTile f
       | none =>
           match (dictGet st1.last_frames stream_id).getD none with
           | some lf => Tile.frameTile lf
           | none => Tile.statusTile stream_id "preparing") := by
  unfold selectTile
  rw [hready]
  rw [if_neg (by intro hc; rcases hc with h | h | h <;> cases h)]
  rw [if_neg hdelay]
  split
  next => rfl
  next =>
    split
    next => rfl
    next => rfl

/-- C7: in a produce-frame cycle (main path, duplicate-free active list),
a stream that is ready after the capture pass and has a nonzero delay D
gets as its tile the buffered frame whose timestamp minimizes
`|timestamp - (now - D/1000)|` over the whole (post-append, post-purge)
delay buffer; when that buffer is empty the cached last-known-good frame
is used, and only when the cache is also empty is a "preparing"
placeholder emitted. -/
theorem C7_confirmed (st : CombinerState) (now : ℚ) (reads : ℕ → Option ℕ)
    (stream_id : ℕ)
    (hmain : st.stream_caps.any (fun c => c.2) = true)
    (hnd : st.active_stream_ids.Nodup)
    (hid : stream_id ∈ st.active_stream_ids)
    (hready : (dictGet (capturePhase st now reads).1.stream_status
      stream_id).getD .initializing = .ready)
    (hdelay : (dictGet st.stream_delays stream_id).getD 0 > 0) :
    (∃ p ∈ (recv st now reads).tiles, p.1 = stream_id) ∧
    (∀ p ∈ (recv st now reads).tiles, p.1 = stream_id →
      (updatedBuffer (capturePhase st now reads).1 now
          (capturePhase st now reads).2 stream_id ≠ [] →
        ∃ fr ∈ updatedBuffer (capturePhase st now reads).1 now
            (capturePhase st now reads).2 stream_id,
          p.2 = Tile.frameTile fr.frame ∧
          ∀ fr2 ∈ updatedBuffer (capturePhase st now reads).1 now
              (capturePhase st now reads).2 stream_id,
            |fr.timestamp - (now -
              (((dictGet st.stream_delays stream_id).getD 0 : ℤ) : ℚ) /
                1000)| ≤
            |fr2.timestamp - (now -
              (((dictGet st.stream_delays stream_id).getD 0 : ℤ) : ℚ) /
                1000)|) ∧
      (updatedBuffer (capturePhase st now reads).1 now
          (capturePhase st now reads).2 stream_id = [] →
        (∀ lf, (dictGet (capturePhase st now reads).1.last_frames
            stream_id).getD none = some lf → p.2 = Tile.frameTile lf) ∧
        ((dictGet (capturePhase st now reads).1.last_frames
            stream_id).getD none = none →
          p.2 = Tile.statusTile stream_id "preparing"))) := by
  obtain ⟨hteq, hseq⟩ := recv_not_early st now reads hmain
  have hcf := capturePhase_fields st now reads
  have hnd1 : (capturePhase st now reads).1.active_stream_ids.Nodup := by
    rw [hcf.2.1]; exact hnd
  have hid1 : stream_id ∈ (capturePhase st now reads).1.active_stream_ids := by
    rw [hcf.2.1]; exact hid
  obtain ⟨hbuf, hex, hall⟩ := outputPhase_spec (capturePhase st now reads).1
    now (capturePhase st now reads).2 stream_id hnd1 hid1
  have hdel1 : (dictGet (capturePhase st now reads).1.stream_delays
      stream_id).getD 0 = (dictGet st.stream_delays stream_id).getD 0 := by
    rw [hcf.2.2.1]
  have hsel := selectTile_delayed (capturePhase st now reads).1 now
    (capturePhase st now reads).2 stream_id hready
    (by rw [hdel1]; omega)
  constructor
  · rw [hteq]; exact hex
  · intro p hp hpid
    rw [hteq] at hp
    have hpt := hall p hp hpid
    rw [hsel, hdel1] at hpt
    dsimp only at hpt
    constructor
    · intro hBne
      obtain ⟨fr, hfr, hscan, hmin⟩ := bestScan_spec
        (updatedBuffer (capturePhase st now reads).1 now
          (capturePhase st now reads).2 stream_id)
        (now - (((dictGet st.stream_delays stream_id).getD 0 : ℤ) : ℚ) /
          1000) hBne
      rw [hscan] at hpt
      exact ⟨fr, hfr, hpt, hmin⟩
    · intro hBe
      rw [show bestScan (updatedBuffer (capturePhase st now reads).1 now
          (capturePhase st now reads).2 stream_id)
          (now - (((dictGet st.stream_delays stream_id).getD 0 : ℤ) : ℚ) /
            1000) = none by rw [hBe]; rfl] at hpt
      constructor
      · intro lf hlf
        rw [hlf] at hpt
        exact hpt
      · intro hnone
        rw [hnone] at hpt
        exact hpt

/-- A one-stream combiner state with a ready stream, a 1000 ms delay and
two buffered frames, at cycle time 10. -/
def c7St : CombinerState :=
  { stream_caps := [(0, true)],
    active_stream_ids := [0],
    stream_delays := [(0, 1000)],
    frame_buffers := [(0, [⟨10, 5, 0⟩, ⟨11, 19/2, 0⟩])],
    last_frames := [(0, some 10)],
    stream_status := [(0, .ready)],
    stream_init_timeout := [(0, 30)] }

theorem C7_confirmed_witness :
    (∃ p ∈ (recv c7St 10 (fun _ => some 42)).tiles, p.1 = 0) ∧
    (∀ p ∈ (recv c7St 10 (fun _ => some 42)).tiles, p.1 = 0 →
      (updatedBuffer (capturePhase c7St 10 (fun _ => some 42)).1 10
          (capturePhase c7St 10 (fun _ => some 42)).2 0 ≠ [] →
        ∃ fr ∈ updatedBuffer (capturePhase c7St 10 (fun _ => some 42)).1 10
            (capturePhase c7St 10 (fun _ => some 42)).2 0,
          p.2 = Tile.frameTile fr.frame ∧
          ∀ fr2 ∈ updatedBuffer (capturePhase c7St 10 (fun _ => some 42)).1
              10 (capturePhase c7St 10 (fun _ => some 42)).2 0,
            |fr.timestamp - (10 -
              (((dictGet c7St.stream_delays 0).getD 0 : ℤ) : ℚ) / 1000)| ≤
            |fr2.timestamp - (10 -
              (((dictGet c7St.stream_delays 0).getD 0 : ℤ) : ℚ) / 1000)|) ∧
      (updatedBuffer (capturePhase c7St 10 (fun _ => some 42)).1 10
          (capturePhase c7St 10 (fun _ => some 42)).2 0 = [] →
        (∀ lf, (dictGet (capturePhase c7St 10
            (fun _ => some 42)).1.last_frames 0).getD none = some lf →
          p.2 = Tile.frameTile lf) ∧
        ((dictGet (capturePhase c7St 10
            (fun _ => some 42)).1.last_frames 0).getD none = none →
          p.2 = Tile.statusTile 0 "preparing"))) :=
  C7_confirmed c7St 10 (fun _ => some 42) 0 (by decide) (by decide)
    (by decide) (by with_unfolding_all rfl) (by decide)

/-- A one-stream combiner state with a ready stream, no delay set and a
buffered frame five seconds old at cycle time 10. -/
def c8St : CombinerState :=
  { stream_caps := [(0, true)],
    active_stream_ids := [0],
    stream_delays := [(0, 0)],
    frame_buffers := [(0, [⟨1, 5, 0⟩])],
    last_frames := [(0, some 1)],
    stream_status := [(0, .ready)],
    stream_init_timeout := [(0, 30)] }

/-- C8 counterexample: with delay 0 and a fresh frame, the cycle appends
to the buffer and purges only at the 10 s window — the claimed 2 s
retention for undelayed streams is not applied on this path, so a frame
five seconds old survives the cycle. -/
theorem C8_counterexample :
    dictGet (recv c8St 10 (fun _ => some 7)).state.frame_buffers 0 =
      some [⟨1, 5, 0⟩, ⟨7, 10, 0⟩] ∧
    (dictGet c8St.stream_delays 0).getD 0 = 0 ∧
    10 - (5 : ℚ) > 2 := by
  refine ⟨?_, by decide, by norm_num⟩
  with_unfolding_all rfl

/-- C8 (amended): per produce-frame cycle each active stream's buffer
stays timestamp-sorted with no timestamp beyond the cycle time, and the
retention actually applied is per path: a non-ready status leaves the
buffer untouched; a fresh frame is appended and the 10 s window is
enforced regardless of the delay setting; the 2 s window is enforced only
on the delay-0 cached-frame path (no fresh frame, cache present); on the
remaining paths no purge runs at all. -/
theorem C8_amended (st : CombinerState) (now : ℚ) (reads : ℕ → Option ℕ)
    (stream_id : ℕ)
    (hmain : st.stream_caps.any (fun c => c.2) = true)
    (hnd : st.active_stream_ids.Nodup)
    (hid : stream_id ∈ st.active_stream_ids)
    (hsort : List.Pairwise (fun a b : StreamFrame =>
      a.timestamp ≤ b.timestamp) ((dictGet st.frame_buffers stream_id).getD []))
    (hbnd : ∀ fr ∈ (dictGet st.frame_buffers stream_id).getD [],
      fr.timestamp ≤ now) :
    ∃ B, dictGet (recv st now reads).state.frame_buffers stream_id =
        some B ∧
      List.Pairwise (fun a b : StreamFrame => a.timestamp ≤ b.timestamp) B ∧
      (∀ fr ∈ B, fr.timestamp ≤ now) ∧
      (((dictGet (capturePhase st now reads).1.stream_status stream_id).getD
            .initializing = .initializing ∨
        (dictGet (capturePhase st now reads).1.stream_status stream_id).getD
            .initializing = .timeout ∨
        (dictGet (capturePhase st now reads).1.stream_status stream_id).getD
            .initializing = .error) →
        B = (dictGet st.frame_buffers stream_id).getD []) ∧
      (¬ ((dictGet (capturePhase st now reads).1.stream_status
            stream_id).getD .initializing = .initializing ∨
          (dictGet (capturePhase st now reads).1.stream_status
            stream_id).getD .initializing = .timeout ∨
          (dictGet (capturePhase st now reads).1.stream_status
            stream_id).getD .initializing = .error) →
        (dictGet (capturePhase st now reads).2 stream_id).isSome = true →
        ∀ fr ∈ B, now - fr.timestamp ≤ 10) ∧
      (¬ ((dictGet (capturePhase st now reads).1.stream_status
            stream_id).getD .initializing = .initializing ∨
          (dictGet (capturePhase st now reads).1.stream_status
            stream_id).getD .initializing = .timeout ∨
          (dictGet (capturePhase st now reads).1.stream_status
            stream_id).getD .initializing = .error) →
        dictGet (capturePhase st now reads).2 stream_id = none →
        (dictGet st.stream_delays stream_id).getD 0 = 0 →
        (dictGet (capturePhase st now reads).1.last_frames stream_id).getD
          none ≠ none →
        ∀ fr ∈ B, now - fr.timestamp ≤ 2) := by
  obtain ⟨hteq, hseq⟩ := recv_not_early st now reads hmain
  have hcf := capturePhase_fields st now reads
  have hnd1 : (capturePhase st now reads).1.active_stream_ids.Nodup := by
    rw [hcf.2.1]; exact hnd
  have hid1 : stream_id ∈ (capturePhase st now reads).1.active_stream_ids := by
    rw [hcf.2.1]; exact hid
  obtain ⟨hbuf, -, -⟩ := outputPhase_spec (capturePhase st now reads).1 now
    (capturePhase st now reads).2 stream_id hnd1 hid1
  have hbe : dictGet (capturePhase st now reads).1.frame_buffers stream_id =
      dictGet st.frame_buffers stream_id := by
    rw [hcf.2.2.2.1]
  have hdel1 : (dictGet (capturePhase st now reads).1.stream_delays
      stream_id).getD 0 = (dictGet st.stream_delays stream_id).getD 0 := by
    rw [hcf.2.2.1]
  refine ⟨(selectTile (capturePhase st now reads).1 now
    (capturePhase st now reads).2 stream_id).1, ?_, ?_⟩
  · rw [hseq]; exact hbuf
  by_cases hbad : (dictGet (capturePhase st now reads).1.stream_status
        stream_id).getD .initializing = .initializing ∨
      (dictGet (capturePhase st now reads).1.stream_status stream_id).getD
        .initializing = .timeout ∨
      (dictGet (capturePhase st now reads).1.stream_status stream_id).getD
        .initializing = .error
  · have hSB : (selectTile (capturePhase st now reads).1 now
        (capturePhase st now reads).2 stream_id).1 =
        (dictGet st.frame_buffers stream_id).getD [] := by
      unfold selectTile
      rw [if_pos hbad]
      dsimp only
      rw [hbe]
    rw [hSB]
    exact ⟨hsort, hbnd, fun _ => rfl, fun hn _ => absurd hbad hn,
      fun hn _ _ _ => absurd hbad hn⟩
  · cases hfr : dictGet (capturePhase st now reads).2 stream_id with
    | some f =>
        have hupd : updatedBuffer (capturePhase st now reads).1 now
            (capturePhase st now reads).2 stream_id =
            purgeOlder now 10 ((dictGet st.frame_buffers stream_id).getD []
              ++ [⟨f, now, stream_id⟩]) := by
          unfold updatedBuffer
          rw [hbe, hfr]
        have hSB : (selectTile (capturePhase st now reads).1 now
            (capturePhase st now reads).2 stream_id).1 =
            updatedBuffer (capturePhase st now reads).1 now
              (capturePhase st now reads).2 stream_id := by
          unfold selectTile
          rw [if_neg hbad]
          split
          · rw [hfr]
          · split
            next => rfl
            next =>
              split
              next => rfl
              next => rfl
        obtain ⟨hs2, hb2⟩ := append_now_sorted now
          ((dictGet st.frame_buffers stream_id).getD [])
          ⟨f, now, stream_id⟩ rfl hsort hbnd
        rw [hSB, hupd]
        refine ⟨purge_pairwise _ _ _ hs2,
          fun fr hfrm => hb2 fr (purge_subset _ _ _ hfrm),
          fun hbadcase => absurd hbadcase hbad, ?_, ?_⟩
        · intro _ _ fr hfrm
          exact purge_bound now 10 _ hs2 fr hfrm
        · intro _ hnone
          exact Option.noConfusion hnone
    | none =>
        have hupd : updatedBuffer (capturePhase st now reads).1 now
            (capturePhase st now reads).2 stream_id =
            (dictGet st.frame_buffers stream_id).getD [] := by
          unfold updatedBuffer
          rw [hbe, hfr]
        by_cases hd0 : (dictGet (capturePhase st now
            reads).1.stream_delays stream_id).getD 0 = 0
        · cases hlf : (dictGet (capturePhase st now reads).1.last_frames
              stream_id).getD none with
          | some lf =>
              have hSB : (selectTile (capturePhase st now reads).1 now
                  (capturePhase st now reads).2 stream_id).1 =
                  purgeOlder now 2
                    ((dictGet st.frame_buffers stream_id).getD [] ++
                      [⟨lf, now, stream_id⟩]) := by
                unfold selectTile
                rw [if_neg hbad, if_pos hd0, hfr, hlf, hupd]
              obtain ⟨hs2, hb2⟩ := append_now_sorted now
                ((dictGet st.frame_buffers stream_id).getD [])
                ⟨lf, now, stream_id⟩ rfl hsort hbnd
              rw [hSB]
              refine ⟨purge_pairwise _ _ _ hs2,
                fun fr hfrm => hb2 fr (purge_subset _ _ _ hfrm),
                fun hbadcase => absurd hbadcase hbad, ?_, ?_⟩
              · intro _ hsome
                exact absurd hsome (by decide)
              · intro _ _ _ _ fr hfrm
                exact purge_bound now 2 _ hs2 fr hfrm
          | none =>
              have hSB : (selectTile (capturePhase st now reads).1 now
                  (capturePhase st now reads).2 stream_id).1 =
                  (dictGet st.frame_buffers stream_id).getD [] := by
                unfold selectTile
                rw [if_neg hbad, if_pos hd0, hfr, hlf, hupd]
              rw [hSB]
              refine ⟨hsort, hbnd, fun _ => rfl, ?_, ?_⟩
              · intro _ hsome
                exact absurd hsome (by decide)
              · intro _ _ _ hlast
                exact absurd rfl hlast
        · have hSB : (selectTile (capturePhase st now reads).1 now
              (capturePhase st now reads).2 stream_id).1 =
              (dictGet st.frame_buffers stream_id).getD [] := by
            unfold selectTile
            rw [if_neg hbad, if_neg hd0, hupd]
            split
            next => rfl
            next =>
              split
              next => rfl
              next => rfl
          rw [hSB]
          refine ⟨hsort, hbnd, fun _ => rfl, ?_, ?_⟩
          · intro _ hsome
            exact absurd hsome (by decide)
          · intro _ _ hd0' _
            rw [hdel1] at hd0
            exact absurd hd0' hd0

theorem C8_amended_witness :
    ((c8St.stream_caps.any (fun c => c.2) = true ∧
      c8St.active_stream_ids.Nodup ∧ 0 ∈ c8St.active_stream_ids) ∧
      List.Pairwise (fun a b : StreamFrame => a.timestamp ≤ b.timestamp)
        ((dictGet c8St.frame_buffers 0).getD []) ∧
      (∀ fr ∈ (dictGet c8St.frame_buffers 0).getD [],
        fr.timestamp ≤ 10)) ∧
    (∃ B, dictGet (recv c8St 10 (fun _ => none)).state.frame_buffers 0 =
        some B ∧
      List.Pairwise (fun a b : StreamFrame => a.timestamp ≤ b.timestamp) B ∧
      (∀ fr ∈ B, fr.timestamp ≤ 10) ∧
      (((dictGet (capturePhase c8St 10 (fun _ => none)).1.stream_status
            0).getD .initializing = .initializing ∨
        (dictGet (capturePhase c8St 10 (fun _ => none)).1.stream_status
            0).getD .initializing = .timeout ∨
        (dictGet (capturePhase c8St 10 (fun _ => none)).1.stream_status
            0).getD .initializing = .error) →
        B = (dictGet c8St.frame_buffers 0).getD []) ∧
      (¬ ((dictGet (capturePhase c8St 10 (fun _ => none)).1.stream_status
            0).getD .initializing = .initializing ∨
          (dictGet (capturePhase c8St 10 (fun _ => none)).1.stream_status
            0).getD .initializing = .timeout ∨
          (dictGet (capturePhase c8St 10 (fun _ => none)).1.stream_status
            0).getD .initializing = .error) →
        (dictGet (capturePhase c8St 10 (fun _ => none)).2 0).isSome =
          true →
        ∀ fr ∈ B, 10 - fr.timestamp ≤ 10) ∧
      (¬ ((dictGet (capturePhase c8St 10 (fun _ => none)).1.stream_status
            0).getD .initializing = .initializing ∨
          (dictGet (capturePhase c8St 10 (fun _ => none)).1.stream_status
            0).getD .initializing = .timeout ∨
          (dictGet (capturePhase c8St 10 (fun _ => none)).1.stream_status
            0).getD .initializing = .error) →
        dictGet (capturePhase c8St 10 (fun _ => none)).2 0 = none →
        (dictGet c8St.stream_delays 0).getD 0 = 0 →
        (dictGet (capturePhase c8St 10 (fun _ => none)).1.last_frames
          0).getD none ≠ none →
        ∀ fr ∈ B, 10 - fr.timestamp ≤ 2)) :=
  ⟨⟨⟨by decide, by decide, by decide⟩, by decide, by decide⟩,
   C8_amended c8St 10 (fun _ => none) 0 (by decide) (by decide) (by decide)
     (by decide) (by decide)⟩

end TrackStudio
